import Mathlib

/-!
Verification development for the "friendly" backend (Instagram/voice ingestion
pipeline, interest graph, async Yutori task reconciliation, matching engine).

Strings are modelled as lists of Unicode code points (`Str := List Nat`), so
that Python's `str.lower()` / `str.strip()` become executable functions with
provable algebraic properties.  Neo4j statements are modelled as pure
transformations of an explicit store state; each Cypher statement in the
source corresponds to one Lean function, translated clause by clause.
-/

namespace Friendly

/-! ## Strings as code-point lists, Python `lower` / `strip` -/

/-- Strings are sequences of Unicode code points. -/
abbrev Str := List Nat

/-- Code points of a Lean string literal, used to write `Str` constants. -/
def S (s : String) : Str := s.data.map Char.toNat

/-- ASCII whitespace recognised by Python `str.strip()` (space, tab, LF, VT, FF, CR). -/
def isSpaceCode (n : Nat) : Bool :=
  decide (n = 32 ∨ n = 9 ∨ n = 10 ∨ n = 11 ∨ n = 12 ∨ n = 13)

/-- ASCII case folding of one code point, as done by Python `str.lower()`. -/
def lowerCode (n : Nat) : Nat := if 65 ≤ n ∧ n ≤ 90 then n + 32 else n

/-- Python `str.lower()`. -/
def pyLower (s : Str) : Str := s.map lowerCode

/-- Python `str.strip()`: drop whitespace from both ends. -/
def pyStrip (s : Str) : Str := (s.dropWhile isSpaceCode).rdropWhile isSpaceCode

/-- `hobby_name.lower().strip()` — the node-name normalisation applied by
`add_interest`, `add_location` and `add_brand` in `app/services/graph.py`. -/
def normName (s : Str) : Str := pyStrip (pyLower s)

theorem lowerCode_lowerCode (n : Nat) : lowerCode (lowerCode n) = lowerCode n := by
  unfold lowerCode
  split_ifs <;> omega

theorem isSpaceCode_lowerCode (n : Nat) : isSpaceCode (lowerCode n) = isSpaceCode n := by
  unfold lowerCode isSpaceCode
  split_ifs with h
  · rw [decide_eq_decide]
    omega
  · rfl

theorem map_lower_map_lower (s : Str) :
    (s.map lowerCode).map lowerCode = s.map lowerCode := by
  induction s with
  | nil => rfl
  | cons a t ih =>
      simp only [List.map_cons, lowerCode_lowerCode]
      rw [ih]

theorem pyLower_pyLower (s : Str) : pyLower (pyLower s) = pyLower s :=
  map_lower_map_lower s

theorem dropWhile_map_lower (s : Str) :
    (s.map lowerCode).dropWhile isSpaceCode = (s.dropWhile isSpaceCode).map lowerCode := by
  induction s with
  | nil => rfl
  | cons a t ih =>
      simp only [List.map_cons, List.dropWhile_cons, isSpaceCode_lowerCode]
      by_cases h : isSpaceCode a
      · simpa [h] using ih
      · simp [h]

theorem reverse_map_lower (s : Str) :
    (s.map lowerCode).reverse = s.reverse.map lowerCode :=
  (List.map_reverse _ _).symm

theorem rdropWhile_map_lower (s : Str) :
    (s.map lowerCode).rdropWhile isSpaceCode = (s.rdropWhile isSpaceCode).map lowerCode := by
  unfold List.rdropWhile
  rw [reverse_map_lower, dropWhile_map_lower, reverse_map_lower]

/-- `lower` and `strip` commute: stripping never sees case-folded whitespace. -/
theorem pyStrip_pyLower (s : Str) : pyStrip (pyLower s) = pyLower (pyStrip s) := by
  unfold pyStrip pyLower
  rw [dropWhile_map_lower, rdropWhile_map_lower]

/-- The head of a `dropWhile`-then-`rdropWhile` strip still fails the predicate,
so a second left strip is the identity. -/
theorem dropWhile_rdropWhile_of_dropWhile {p : Nat → Bool} {y : Str}
    (hy : y.dropWhile p = y) : (y.rdropWhile p).dropWhile p = y.rdropWhile p := by
  obtain ⟨t, ht⟩ := List.dropWhile_suffix (l := y.reverse) p
  have hz : y.rdropWhile p = (y.reverse.dropWhile p).reverse := rfl
  have hy2 : y = (y.reverse.dropWhile p).reverse ++ t.reverse := by
    have := congrArg List.reverse ht
    simpa using this.symm
  rw [hz]
  rcases hzz : (y.reverse.dropWhile p).reverse with _ | ⟨a, z⟩
  · rfl
  · have hyc : y = a :: (z ++ t.reverse) := by
      rw [hy2, hzz]; rfl
    have ha : p a = false := by
      have := hy
      rw [hyc] at this
      simp only [List.dropWhile_cons] at this
      by_cases hpa : p a
      · exfalso
        rw [hpa] at this
        simp only [if_true] at this
        have hlen := congrArg List.length this
        simp only [List.length_cons, List.length_append] at hlen
        have h1 : (List.dropWhile p (z ++ t.reverse)).length ≤ (z ++ t.reverse).length :=
          (List.dropWhile_suffix p).sublist.length_le
        simp only [List.length_append] at h1
        omega
      · exact Bool.eq_false_iff.mpr hpa
    simp [List.dropWhile_cons, ha]

/-- Python `strip` is idempotent. -/
theorem pyStrip_pyStrip (s : Str) : pyStrip (pyStrip s) = pyStrip s := by
  unfold pyStrip
  have h1 : ((s.dropWhile isSpaceCode).rdropWhile isSpaceCode).dropWhile isSpaceCode
      = (s.dropWhile isSpaceCode).rdropWhile isSpaceCode :=
    dropWhile_rdropWhile_of_dropWhile (List.dropWhile_idempotent _ _)
  rw [h1, List.rdropWhile_idempotent]

/-- The node name computed for a raw extracted value `v`
(`val.strip()` in `add_entities_from_extraction`, then `.lower().strip()`
inside the `add_*` writers) equals `normName v`. -/
theorem strip_lower_strip (v : Str) : pyStrip (pyLower (pyStrip v)) = normName v := by
  unfold normName
  rw [← pyStrip_pyLower, pyStrip_pyStrip]

theorem pyLower_normName (v : Str) : pyLower (normName v) = normName v := by
  unfold normName
  rw [← pyStrip_pyLower, pyStrip_pyLower, pyStrip_pyLower, pyLower_pyLower]

theorem pyStrip_normName (v : Str) : pyStrip (normName v) = normName v := by
  unfold normName
  rw [pyStrip_pyStrip]

theorem length_pyStrip_pyLower (v : Str) : (pyStrip (pyLower v)).length = (pyStrip v).length := by
  rw [pyStrip_pyLower]
  simp [pyLower]

theorem pyStrip_nil : pyStrip ([] : Str) = [] := rfl

/-! ## Interest graph store (`app/services/graph.py`)

The Neo4j store is modelled as explicit edge lists.  `MERGE` on a
`(user, name)` edge key matches the unique existing edge or creates one;
`upsertInterest` / `upsertAffiliation` translate the `MERGE ... SET ...`
statements of `add_interest`, `add_location` and `add_brand`. -/

structure InterestEdge where
  user : Str
  hobby : Str
  weight : ℚ
  source : Str
  evidence : Option Str
deriving DecidableEq

structure AffiliationEdge where
  user : Str
  name : Str
  source : Str
deriving DecidableEq

structure GraphState where
  interests : List InterestEdge
  locations : List AffiliationEdge
  brands : List AffiliationEdge
deriving DecidableEq

def GraphState.empty : GraphState := ⟨[], [], []⟩

/-- `MERGE (u)-[r:INTERESTED_IN]->(h)` followed by
`SET r.weight = CASE WHEN r.weight IS NULL THEN $weight
 ELSE CASE WHEN $weight > r.weight THEN $weight ELSE r.weight END END,
 r.source = $source, r.evidence = COALESCE($evidence, r.evidence)`. -/
def upsertInterest (uid key : Str) (w : ℚ) (src : Str) (ev : Option Str) :
    List InterestEdge → List InterestEdge
  | [] => [⟨uid, key, w, src, ev⟩]
  | e :: rest =>
    if e.user = uid ∧ e.hobby = key then
      { e with weight := if w > e.weight then w else e.weight,
               source := src,
               evidence := match ev with | some x => some x | none => e.evidence } :: rest
    else
      e :: upsertInterest uid key w src ev rest

/-- `add_interest`: the hobby node name is `hobby_name.lower().strip()`. -/
def add_interest (g : GraphState) (uid hobbyName : Str) (w : ℚ) (src : Str)
    (ev : Option Str) : GraphState :=
  { g with interests := upsertInterest uid (normName hobbyName) w src ev g.interests }

/-- `MERGE (u)-[r:VISITED]->(l)` / `MERGE (u)-[r:KNOWS]->(b)` with
`SET r.source = $source` (last write wins). -/
def upsertAffiliation (uid key src : Str) : List AffiliationEdge → List AffiliationEdge
  | [] => [⟨uid, key, src⟩]
  | e :: rest =>
    if e.user = uid ∧ e.name = key then
      { e with source := src } :: rest
    else
      e :: upsertAffiliation uid key src rest

/-- `add_location`: the location node name is `location_name.lower().strip()`. -/
def add_location (g : GraphState) (uid locName src : Str) : GraphState :=
  { g with locations := upsertAffiliation uid (normName locName) src g.locations }

/-- `add_brand`: the brand node name is `brand_name.lower().strip()`. -/
def add_brand (g : GraphState) (uid brandName src : Str) : GraphState :=
  { g with brands := upsertAffiliation uid (normName brandName) src g.brands }

/-- The `PLURAL_MAP` table of `add_entities_from_extraction`. -/
def PLURAL_MAP : List (Str × Str) :=
  [(S "hobbies", S "hobby"), (S "activities", S "activity"), (S "sports", S "sport"),
   (S "locations", S "location"), (S "brands", S "brand"), (S "foods", S "food"),
   (S "musics", S "music"), (S "arts", S "art")]

/-- `PLURAL_MAP.get(k, k)`. -/
def pluralGet (k : Str) : Str :=
  ((PLURAL_MAP.find? (fun e => e.1 == k)).map Prod.snd).getD k

/-- Python dict assignment `d[k] = v`: overwrite in place if the key exists,
otherwise append (insertion order preserved). -/
def dictInsert (d : List (Str × List Str)) (k : Str) (v : List Str) : List (Str × List Str) :=
  if d.any (fun e => e.1 == k) then d.map (fun e => if e.1 == k then (k, v) else e)
  else d ++ [(k, v)]

/-- The key-normalisation loop of `add_entities_from_extraction`:
`key = PLURAL_MAP.get(label.lower(), label.lower()); normalized[key] = values`. -/
def normalizeEntityKeys (entities : List (Str × List Str)) : List (Str × List Str) :=
  entities.foldl (fun acc lv => dictInsert acc (pluralGet (pyLower lv.1)) lv.2) []

def interestLabels : List Str :=
  [S "hobby", S "activity", S "sport", S "music", S "art", S "food"]

/-- One iteration of the inner value loop of `add_entities_from_extraction`:
skip empty/short values, strip, then dispatch on the normalised label.
(Non-string values, which the Python code also skips, are outside the model.) -/
def addOneValue (uid src label : Str) (gc : GraphState × Nat) (v : Str) : GraphState × Nat :=
  if v = [] ∨ (pyStrip v).length < 2 then gc
  else
    let v2 := pyStrip v
    if label ∈ interestLabels then
      (add_interest gc.1 uid v2 (3/5 : ℚ) src (some (S "Extracted as " ++ label)), gc.2 + 1)
    else if label = S "location" then
      (add_location gc.1 uid v2 src, gc.2 + 1)
    else if label = S "brand" then
      (add_brand gc.1 uid v2 src, gc.2 + 1)
    else gc

/-- `add_entities_from_extraction(user_id, entities, source)`; returns the
updated graph and the count of entities added. -/
def add_entities_from_extraction (g : GraphState) (uid : Str)
    (entities : List (Str × List Str)) (src : Str) : GraphState × Nat :=
  (normalizeEntityKeys entities).foldl
    (fun gc lv => lv.2.foldl (addOneValue uid src lv.1) gc) (g, 0)

/-- Edge lookup used to state weight properties: the unique
`INTERESTED_IN` edge for `(user, topic)` after node-name normalisation. -/
def lookupInterest (g : GraphState) (uid key : Str) : Option InterestEdge :=
  g.interests.find? (fun e => decide (e.user = uid ∧ e.hobby = key))

/-- The weight stored on the `(user, topic)` interest edge. -/
def storedWeight (g : GraphState) (uid topic : Str) : Option ℚ :=
  (lookupInterest g uid (normName topic)).map InterestEdge.weight

theorem if_gt_eq_max (w1 w2 : ℚ) : (if w2 > w1 then w2 else w1) = max w1 w2 := by
  by_cases h : w2 > w1
  · simp [h, max_eq_right (le_of_lt h)]
  · push_neg at h
    simp [not_lt_of_le h, max_eq_left h]

theorem find?_upsert_twice (uid key : Str) (w1 w2 : ℚ) (s1 s2 : Str) (e1 e2 : Option Str)
    (l : List InterestEdge)
    (hl : l.find? (fun e => decide (e.user = uid ∧ e.hobby = key)) = none) :
    ((upsertInterest uid key w2 s2 e2 (upsertInterest uid key w1 s1 e1 l)).find?
        (fun e => decide (e.user = uid ∧ e.hobby = key))).map InterestEdge.weight
      = some (max w1 w2) := by
  induction l with
  | nil =>
      simp [upsertInterest, List.find?, if_gt_eq_max]
  | cons a t ih =>
      rw [List.find?_eq_none] at hl
      have ha : ¬ (a.user = uid ∧ a.hobby = key) := by
        have := hl a (List.mem_cons_self a t)
        simpa using this
      have ht : t.find? (fun e => decide (e.user = uid ∧ e.hobby = key)) = none :=
        List.find?_eq_none.mpr (fun x hx => hl x (List.mem_cons_of_mem _ hx))
      simp only [upsertInterest, if_neg ha]
      rw [List.find?_cons_of_neg _ (by simpa using ha)]
      exact ih ht

theorem find?_upsert_mono (uid key : Str) (w : ℚ) (src : Str) (ev : Option Str)
    (l : List InterestEdge) (ed : InterestEdge)
    (hl : l.find? (fun e => decide (e.user = uid ∧ e.hobby = key)) = some ed) :
    ∃ ed2, (upsertInterest uid key w src ev l).find?
        (fun e => decide (e.user = uid ∧ e.hobby = key)) = some ed2
      ∧ ed.weight ≤ ed2.weight := by
  induction l with
  | nil => simp at hl
  | cons a t ih =>
      by_cases ha : a.user = uid ∧ a.hobby = key
      · clear ih
        rw [List.find?_cons_of_pos _ (by simpa using ha)] at hl
        have hae : a = ed := by simpa using hl
        subst hae
        refine ⟨{ a with weight := if w > a.weight then w else a.weight,
                          source := src,
                          evidence := match ev with | some x => some x | none => a.evidence },
                ?_, ?_⟩
        · simp only [upsertInterest, if_pos ha]
          rw [List.find?_cons_of_pos _ (by simpa using ha)]
        · by_cases hw : w > a.weight
          · simp [hw, le_of_lt hw]
          · simp [hw]
      · rw [List.find?_cons_of_neg _ (by simpa using ha)] at hl
        obtain ⟨ed2, h2, hle⟩ := ih hl
        refine ⟨ed2, ?_, hle⟩
        simp only [upsertInterest, if_neg ha]
        rw [List.find?_cons_of_neg _ (by simpa using ha)]
        exact h2

/-- Claim C4: merging the same `(user, topic)` interest twice, first with
weight `w1` and then with weight `w2`, leaves the stored edge weight equal to
`max w1 w2`; and a later merge never decreases the stored weight. -/
theorem add_interest_weight_max
    (g : GraphState) (uid topic : Str) (w1 w2 : ℚ) (s1 s2 : Str) (e1 e2 : Option Str)
    (h : lookupInterest g uid (normName topic) = none) :
    storedWeight (add_interest (add_interest g uid topic w1 s1 e1) uid topic w2 s2 e2)
        uid topic = some (max w1 w2)
    ∧ ∀ (g2 : GraphState) (w : ℚ) (s : Str) (ev : Option Str) (w0 : ℚ),
        storedWeight g2 uid topic = some w0 →
        ∃ w3, storedWeight (add_interest g2 uid topic w s ev) uid topic = some w3
          ∧ w0 ≤ w3 := by
  constructor
  · exact find?_upsert_twice uid (normName topic) w1 w2 s1 s2 e1 e2 g.interests h
  · intro g2 w s ev w0 h0
    unfold storedWeight lookupInterest at h0 ⊢
    obtain ⟨ed, hed, hw0⟩ := Option.map_eq_some'.mp h0
    obtain ⟨ed2, h2, hle⟩ := find?_upsert_mono uid (normName topic) w s ev g2.interests ed hed
    refine ⟨ed2.weight, ?_, hw0 ▸ hle⟩
    rw [show (add_interest g2 uid topic w s ev).interests
          = upsertInterest uid (normName topic) w s ev g2.interests from rfl, h2]
    rfl

/-- Witness for C4 at a concrete input: a fresh user and the topic
`"Climbing "`, merged with weights 1/2 then 3/10. -/
theorem add_interest_weight_max_witness :
    storedWeight
        (add_interest
          (add_interest GraphState.empty (S "u1") (S "Climbing ") (1/2) (S "visual") none)
          (S "u1") (S "Climbing ") (3/10) (S "visual") none)
        (S "u1") (S "Climbing ") = some (max (1/2) (3/10)) :=
  (add_interest_weight_max GraphState.empty (S "u1") (S "Climbing ")
    (1/2) (3/10) (S "visual") (S "visual") none none rfl).1

/-! ## Name normalisation on the entity-ingestion path (claim C10) -/

/-- A node name already in its canonical form: lowercased and stripped. -/
def NormalizedName (n : Str) : Prop := pyLower n = n ∧ pyStrip n = n

/-- All Hobby, Location and Brand node names in the graph are normalised. -/
def NormalizedGraph (g : GraphState) : Prop :=
  (∀ e ∈ g.interests, NormalizedName e.hobby)
  ∧ (∀ e ∈ g.locations, NormalizedName e.name)
  ∧ (∀ e ∈ g.brands, NormalizedName e.name)

instance (n : Str) : Decidable (NormalizedName n) := by
  unfold NormalizedName; infer_instance

instance (g : GraphState) : Decidable (NormalizedGraph g) := by
  unfold NormalizedGraph; infer_instance

theorem normalizedName_normName (v : Str) : NormalizedName (normName v) :=
  ⟨pyLower_normName v, pyStrip_normName v⟩

theorem mem_upsertInterest (uid key : Str) (w : ℚ) (src : Str) (ev : Option Str) :
    ∀ (l : List InterestEdge) (e2 : InterestEdge), e2 ∈ upsertInterest uid key w src ev l →
      e2.hobby = key ∨ ∃ e1 ∈ l, e2.hobby = e1.hobby := by
  intro l
  induction l with
  | nil =>
      intro e2 h2
      simp only [upsertInterest, List.mem_singleton] at h2
      subst h2
      exact Or.inl rfl
  | cons a t ih =>
      intro e2 h2
      by_cases ha : a.user = uid ∧ a.hobby = key
      · simp only [upsertInterest, if_pos ha, List.mem_cons] at h2
        rcases h2 with h2 | h2
        · subst h2
          exact Or.inr ⟨a, List.mem_cons_self a t, rfl⟩
        · exact Or.inr ⟨e2, List.mem_cons_of_mem _ h2, rfl⟩
      · simp only [upsertInterest, if_neg ha, List.mem_cons] at h2
        rcases h2 with h2 | h2
        · subst h2
          exact Or.inr ⟨e2, List.mem_cons_self _ _, rfl⟩
        · rcases ih e2 h2 with h | ⟨e1, he1, hh⟩
          · exact Or.inl h
          · exact Or.inr ⟨e1, List.mem_cons_of_mem _ he1, hh⟩

theorem mem_upsertAffiliation (uid key src : Str) :
    ∀ (l : List AffiliationEdge) (e2 : AffiliationEdge), e2 ∈ upsertAffiliation uid key src l →
      e2.name = key ∨ ∃ e1 ∈ l, e2.name = e1.name := by
  intro l
  induction l with
  | nil =>
      intro e2 h2
      simp only [upsertAffiliation, List.mem_singleton] at h2
      subst h2
      exact Or.inl rfl
  | cons a t ih =>
      intro e2 h2
      by_cases ha : a.user = uid ∧ a.name = key
      · simp only [upsertAffiliation, if_pos ha, List.mem_cons] at h2
        rcases h2 with h2 | h2
        · subst h2
          exact Or.inr ⟨a, List.mem_cons_self a t, rfl⟩
        · exact Or.inr ⟨e2, List.mem_cons_of_mem _ h2, rfl⟩
      · simp only [upsertAffiliation, if_neg ha, List.mem_cons] at h2
        rcases h2 with h2 | h2
        · subst h2
          exact Or.inr ⟨e2, List.mem_cons_self _ _, rfl⟩
        · rcases ih e2 h2 with h | ⟨e1, he1, hh⟩
          · exact Or.inl h
          · exact Or.inr ⟨e1, List.mem_cons_of_mem _ he1, hh⟩

theorem normalized_add_interest (g : GraphState) (uid v : Str) (w : ℚ) (src : Str)
    (ev : Option Str) (hg : NormalizedGraph g) :
    NormalizedGraph (add_interest g uid v w src ev) := by
  obtain ⟨hi, hl, hb⟩ := hg
  refine ⟨?_, hl, hb⟩
  intro e2 h2
  rcases mem_upsertInterest uid (normName v) w src ev g.interests e2 h2 with h | ⟨e1, he1, hh⟩
  · rw [h]; exact normalizedName_normName v
  · rw [hh]; exact hi e1 he1

theorem normalized_add_location (g : GraphState) (uid v src : Str)
    (hg : NormalizedGraph g) : NormalizedGraph (add_location g uid v src) := by
  obtain ⟨hi, hl, hb⟩ := hg
  refine ⟨hi, ?_, hb⟩
  intro e2 h2
  rcases mem_upsertAffiliation uid (normName v) src g.locations e2 h2 with h | ⟨e1, he1, hh⟩
  · rw [h]; exact normalizedName_normName v
  · rw [hh]; exact hl e1 he1

theorem normalized_add_brand (g : GraphState) (uid v src : Str)
    (hg : NormalizedGraph g) : NormalizedGraph (add_brand g uid v src) := by
  obtain ⟨hi, hl, hb⟩ := hg
  refine ⟨hi, hl, ?_⟩
  intro e2 h2
  rcases mem_upsertAffiliation uid (normName v) src g.brands e2 h2 with h | ⟨e1, he1, hh⟩
  · rw [h]; exact normalizedName_normName v
  · rw [hh]; exact hb e1 he1

theorem normalized_addOneValue (uid src label : Str) (gc : GraphState × Nat) (v : Str)
    (hg : NormalizedGraph gc.1) : NormalizedGraph (addOneValue uid src label gc v).1 := by
  unfold addOneValue
  split_ifs with h1 h2 h3 h4
  · exact hg
  · exact normalized_add_interest _ _ _ _ _ _ hg
  · exact normalized_add_location _ _ _ _ hg
  · exact normalized_add_brand _ _ _ _ hg
  · exact hg

theorem foldl_preserve {α β : Type} (P : α → Prop) (f : α → β → α)
    (hf : ∀ a b, P a → P (f a b)) : ∀ (l : List β) (a : α), P a → P (l.foldl f a) := by
  intro l
  induction l with
  | nil => intro a ha; exact ha
  | cons b t ih => intro a ha; exact ih (f a b) (hf a b ha)

theorem normalized_add_entities (g : GraphState) (uid : Str)
    (entities : List (Str × List Str)) (src : Str) (hg : NormalizedGraph g) :
    NormalizedGraph (add_entities_from_extraction g uid entities src).1 := by
  unfold add_entities_from_extraction
  refine foldl_preserve (fun gc => NormalizedGraph gc.1) _ ?_ _ (g, 0) hg
  intro a b ha
  exact foldl_preserve (fun gc => NormalizedGraph gc.1)
    (addOneValue uid src b.1) (fun a2 v h => normalized_addOneValue uid src b.1 a2 v h) b.2 a ha

theorem addOneValue_congr (uid src label : Str) (gc : GraphState × Nat) (v1 v2 : Str)
    (hv : normName v1 = normName v2) :
    addOneValue uid src label gc v1 = addOneValue uid src label gc v2 := by
  have hlen : (pyStrip v1).length = (pyStrip v2).length := by
    have h1 := length_pyStrip_pyLower v1
    have h2 := length_pyStrip_pyLower v2
    unfold normName at hv
    rw [← h1, ← h2, hv]
  have hkey : normName (pyStrip v1) = normName (pyStrip v2) := by
    have e1 : normName (pyStrip v1) = normName v1 := strip_lower_strip v1
    have e2 : normName (pyStrip v2) = normName v2 := strip_lower_strip v2
    rw [e1, e2, hv]
  have hcond : (v1 = [] ∨ (pyStrip v1).length < 2) ↔ (v2 = [] ∨ (pyStrip v2).length < 2) := by
    constructor
    · rintro (h | h)
      · subst h; right; rw [← hlen]; simp [pyStrip_nil]
      · right; rw [← hlen]; exact h
    · rintro (h | h)
      · subst h; right; rw [hlen]; simp [pyStrip_nil]
      · right; rw [hlen]; exact h
  have hint : add_interest gc.1 uid (pyStrip v1) (3/5 : ℚ) src (some (S "Extracted as " ++ label))
      = add_interest gc.1 uid (pyStrip v2) (3/5 : ℚ) src (some (S "Extracted as " ++ label)) := by
    unfold add_interest
    rw [hkey]
  have hloc : add_location gc.1 uid (pyStrip v1) src = add_location gc.1 uid (pyStrip v2) src := by
    unfold add_location
    rw [hkey]
  have hbr : add_brand gc.1 uid (pyStrip v1) src = add_brand gc.1 uid (pyStrip v2) src := by
    unfold add_brand
    rw [hkey]
  unfold addOneValue
  by_cases hc : v2 = [] ∨ (pyStrip v2).length < 2
  · rw [if_pos (hcond.mpr hc), if_pos hc]
  · rw [if_neg (fun h => hc (hcond.mp h)), if_neg hc]
    simp only [hint, hloc, hbr]

/-- Claim C10: every Hobby, Location and Brand name written by the
entity-ingestion path is lowercased and stripped before being merged
(normalisation is preserved by `add_entities_from_extraction`), and two
extracted values differing only in letter case or surrounding whitespace
(`normName v1 = normName v2`) produce identical graph writes, so they merge
into the same node instead of creating duplicates. -/
theorem add_entities_normalization
    (g : GraphState) (uid : Str) (entities : List (Str × List Str)) (src : Str)
    (label v1 v2 : Str) (hg : NormalizedGraph g) (hv : normName v1 = normName v2) :
    NormalizedGraph (add_entities_from_extraction g uid entities src).1
    ∧ add_entities_from_extraction g uid [(label, [v1])] src
        = add_entities_from_extraction g uid [(label, [v2])] src := by
  constructor
  · exact normalized_add_entities g uid entities src hg
  · unfold add_entities_from_extraction normalizeEntityKeys
    simp only [List.foldl_cons, List.foldl_nil]
    exact addOneValue_congr uid src (pluralGet (pyLower label)) (g, 0) v1 v2 hv

/-- Witness for C10: ingesting `"Hobbies": [" Rock Climbing "]` into an empty
graph, and the case/whitespace variants `" Nike"` and `"nike "` of a brand. -/
theorem add_entities_normalization_witness :
    NormalizedGraph (add_entities_from_extraction GraphState.empty (S "u1")
        [(S "Hobbies", [S " Rock Climbing "])] (S "visual")).1
    ∧ add_entities_from_extraction GraphState.empty (S "u1")
          [(S "brand", [S " Nike"])] (S "visual")
        = add_entities_from_extraction GraphState.empty (S "u1")
          [(S "brand", [S "nike "])] (S "visual") :=
  add_entities_normalization GraphState.empty (S "u1")
    [(S "Hobbies", [S " Rock Climbing "])] (S "visual") (S "brand") (S " Nike") (S "nike ")
    (by decide) (by decide)

/-! ## Matching engine (`find_matches` in `app/services/graph.py`)

The Cypher query matches `(me)-[r1:INTERESTED_IN]->(h)<-[r2:INTERESTED_IN]-(other)`
with `other.id <> $uid`, aggregates `sum(r1.weight * r2.weight)` and
`collect(DISTINCT h.name)` per `other`, orders by affinity descending and
applies `LIMIT`.  `MERGE` guarantees at most one `INTERESTED_IN` edge per
`(user, hobby)` pair, so per-row summation equals summation over the set of
commonly-held topics with a key-unique weight lookup. -/

structure MatchResult where
  user : Str
  shared : List Str
  affinity : ℚ
deriving DecidableEq

/-- The weight on the unique `(user, topic)` edge (0 if absent; only applied
to topics both users hold, where the edge exists). -/
def weightOf (g : GraphState) (uid topic : Str) : ℚ :=
  ((g.interests.find? (fun e => decide (e.user = uid ∧ e.hobby = topic))).map
    InterestEdge.weight).getD 0

/-- The distinct hobby names a user is interested in. -/
def topicsOf (g : GraphState) (uid : Str) : List Str :=
  ((g.interests.filter (fun e => decide (e.user = uid))).map InterestEdge.hobby).dedup

/-- `collect(DISTINCT h.name)` over the shared-hobby pattern. -/
def commonTopics (g : GraphState) (a b : Str) : List Str :=
  (topicsOf g a).filter (fun t => decide (t ∈ topicsOf g b))

/-- `sum(r1.weight * r2.weight)` over the shared-hobby rows. -/
def affinity (g : GraphState) (a b : Str) : ℚ :=
  ((commonTopics g a b).map (fun t => weightOf g a t * weightOf g b t)).sum

/-- The `other` users produced by the match pattern: distinct from the
querying user and sharing at least one hobby with them. -/
def matchCandidates (g : GraphState) (uid : Str) : List Str :=
  ((g.interests.map InterestEdge.user).dedup).filter
    (fun o => decide (o ≠ uid) && decide (commonTopics g uid o ≠ []))

/-- `ORDER BY affinity DESC`. -/
def affGE (a b : MatchResult) : Prop := b.affinity ≤ a.affinity

instance : DecidableRel affGE := fun a b => inferInstanceAs (Decidable (b.affinity ≤ a.affinity))

instance : IsTotal MatchResult affGE := ⟨fun a b => le_total b.affinity a.affinity⟩

instance : IsTrans MatchResult affGE := ⟨fun _ _ _ h1 h2 => le_trans h2 h1⟩

/-- `find_matches(user_id, limit)`. -/
def find_matches (g : GraphState) (uid : Str) (limit : Nat) : List MatchResult :=
  (List.insertionSort affGE
    ((matchCandidates g uid).map
      (fun o => ⟨o, commonTopics g uid o, affinity g uid o⟩))).take limit

theorem mem_find_matches (g : GraphState) (uid : Str) (limit : Nat) (m : MatchResult)
    (hm : m ∈ find_matches g uid limit) :
    m.user ∈ matchCandidates g uid ∧ m = ⟨m.user, commonTopics g uid m.user, affinity g uid m.user⟩ := by
  unfold find_matches at hm
  have h1 : m ∈ List.insertionSort affGE
      ((matchCandidates g uid).map
        (fun o => (⟨o, commonTopics g uid o, affinity g uid o⟩ : MatchResult))) :=
    List.take_subset limit _ hm
  have h2 : m ∈ (matchCandidates g uid).map
      (fun o => (⟨o, commonTopics g uid o, affinity g uid o⟩ : MatchResult)) :=
    (List.perm_insertionSort affGE _).mem_iff.mp h1
  obtain ⟨o, ho, hom⟩ := List.mem_map.mp h2
  have huser : m.user = o := by rw [← hom]
  subst huser
  exact ⟨ho, hom.symm⟩

/-- Claim C6: `find_matches` never returns the querying person, every
returned affinity is the sum over the commonly-held topics of the product of
the two users' weights, and the result list is sorted by descending affinity. -/
theorem find_matches_spec (g : GraphState) (uid : Str) (limit : Nat) :
    (∀ m ∈ find_matches g uid limit, m.user ≠ uid)
    ∧ (∀ m ∈ find_matches g uid limit,
        m.affinity = ((commonTopics g uid m.user).map
          (fun t => weightOf g uid t * weightOf g m.user t)).sum)
    ∧ List.Sorted affGE (find_matches g uid limit) := by
  refine ⟨?_, ?_, ?_⟩
  · intro m hm
    obtain ⟨hc, _⟩ := mem_find_matches g uid limit m hm
    have := List.of_mem_filter hc
    simp only [Bool.and_eq_true, decide_eq_true_eq] at this
    exact this.1
  · intro m hm
    obtain ⟨_, he⟩ := mem_find_matches g uid limit m hm
    calc m.affinity = (⟨m.user, commonTopics g uid m.user, affinity g uid m.user⟩ :
          MatchResult).affinity := by rw [← he]
    _ = affinity g uid m.user := rfl
    _ = _ := rfl
  · exact List.Pairwise.sublist (List.take_sublist _ _) (List.sorted_insertionSort affGE _)

/-! ## Async task reconciliation
(`app/services/graph.py` task records, `app/workers/yutori_poller.py`,
`app/routers/webhooks.py`) -/

inductive TaskStatus
  | pending
  | running
  | completed
  | failed
deriving DecidableEq

/-- One item of a structured Yutori result; `none` stands for a non-dict
array entry, which `handle_yutori_completion` skips. -/
structure SItem where
  summary : Str
  title : Str
deriving DecidableEq

/-- A JSON value in the `structured_result` / `result` position: either an
array of items or a plain string. -/
inductive SVal
  | list (items : List (Option SItem))
  | str (s : Str)
deriving DecidableEq

/-- A Yutori payload (webhook body or research-status response): optional
`task_id` / `id` keys, an optional `status`, and the result fields. -/
structure TaskPayload where
  task_id : Option Str
  id : Option Str
  status : Option Str
  structured_result : Option SVal
  result : Option SVal
deriving DecidableEq

structure TaskRecord where
  provider_task_id : Str
  task_type : Str
  interest : Str
  user_id : Str
  status : TaskStatus
  attempts : Nat
  created_at : Int
  result_json : Option TaskPayload
deriving DecidableEq

/-- Python falsiness of an absent/empty result field. -/
def svalFalsy : Option SVal → Bool
  | none => true
  | some (.list l) => l.isEmpty
  | some (.str s) => s.isEmpty

/-- `structured = result.get("structured_result") or result.get("result", "")`. -/
def structuredOf (p : TaskPayload) : SVal :=
  if svalFalsy p.structured_result then p.result.getD (.str [])
  else p.structured_result.getD (.str [])

/-- The text `handle_yutori_completion` extracts from the payload:
`" ".join(item["summary"] + " " + item["title"] for dict items)` for an
array, the string itself otherwise. -/
def textOf (p : TaskPayload) : Str :=
  match structuredOf p with
  | .list items => List.intercalate [32]
      (items.filterMap (fun it => it.map (fun i => i.summary ++ [32] ++ i.title)))
  | .str s => s

/-- The environment of one reconciliation step: the response of
`pioneer.extract_entities` (which swallows its own errors and always
returns an entity dict) as a function of the extracted text. -/
structure ReconcilerEnv where
  pioneerExtract : Str → List (Str × List Str)

/-- System state threaded through the reconciler: the TaskRecord store, the
interest graph, and instrumentation counters — `pioneerCalls` counts
invocations of the extraction provider, `completionRuns` counts executions
of the result-processing block that only runs when the conditional
completion write reported a new completion. -/
structure SysState where
  tasks : List TaskRecord
  graph : GraphState
  pioneerCalls : Nat
  completionRuns : Nat
deriving DecidableEq

/-- The conditional completion write of `complete_task_record`:
`MATCH (t:TaskRecord {provider_task_id: $ptid}) WHERE t.status <> 'completed'
 SET t.status = 'completed', t.result_json = $rj, t.attempts = t.attempts + 1
 RETURN ...`; the boolean is `record is not None`.  (`provider_task_id` is
vendor-unique, so at most one record matches.) -/
def completeTaskList (ptid : Str) (rj : TaskPayload) :
    List TaskRecord → List TaskRecord × Bool
  | [] => ([], false)
  | t :: rest =>
    if t.provider_task_id = ptid ∧ t.status ≠ .completed then
      ({ t with status := .completed, result_json := some rj,
                attempts := t.attempts + 1 } :: rest, true)
    else
      let r := completeTaskList ptid rj rest
      (t :: r.1, r.2)

def complete_task_record (st : SysState) (ptid : Str) (rj : TaskPayload) : SysState × Bool :=
  let r := completeTaskList ptid rj st.tasks
  ({ st with tasks := r.1 }, r.2)

/-- `handle_yutori_completion(provider_task_id, result, interest, user_id)`:
conditional completion write first; only on a new completion extract text,
call Pioneer and merge the entities into the graph.  Returns
`(was_new, state)`. -/
def handle_yutori_completion (env : ReconcilerEnv) (st : SysState) (ptid : Str)
    (result : TaskPayload) (interest uid : Str) : Bool × SysState :=
  let r := complete_task_record st ptid result
  if r.2 = false then (false, r.1)
  else
    let st2 := { r.1 with completionRuns := r.1.completionRuns + 1 }
    let text := textOf result
    if pyStrip text ≠ [] then
      let entities := env.pioneerExtract text
      let g2 := add_entities_from_extraction st2.graph uid entities (S "research")
      (true, { st2 with graph := g2.1, pioneerCalls := st2.pioneerCalls + 1 })
    else (true, st2)

inductive WebhookStatus
  | processed
  | duplicate
  | ignored
deriving DecidableEq

/-- Python truthiness for an optional string field. -/
def truthyStr : Option Str → Option Str
  | some s => if s = [] then none else some s
  | none => none

/-- `task_id = payload.get("task_id") or payload.get("id")`, guarded by
`if not task_id`. -/
def getTaskId (p : TaskPayload) : Option Str :=
  match truthyStr p.task_id with
  | some s => some s
  | none => truthyStr p.id

/-- The `/api/webhooks/yutori` route.  `Except Unit` is the FastAPI outcome:
`.ok` is an HTTP-success JSON response, `.error` would be a raised
`HTTPException`; this handler never raises. -/
def yutori_webhook (env : ReconcilerEnv) (st : SysState) (payload : TaskPayload) :
    Except Unit (WebhookStatus × SysState) :=
  match getTaskId payload with
  | none => .ok (.ignored, st)
  | some tid =>
    match st.tasks.find? (fun t => decide (t.provider_task_id = tid)) with
    | none => .ok (.ignored, st)
    | some task =>
      let r := handle_yutori_completion env st tid payload task.interest task.user_id
      .ok (if r.1 then .processed else .duplicate, r.2)

def STALE_THRESHOLD_MINUTES : Int := 10

/-- `get_pending_tasks(older_than_minutes)`: TaskRecords with status in
`{pending, running}` created before `now - older_than_minutes`. -/
def get_pending_tasks (tasks : List TaskRecord) (now olderThan : Int) : List TaskRecord :=
  tasks.filter (fun t =>
    decide ((t.status = .pending ∨ t.status = .running) ∧ t.created_at < now - olderThan))

/-- Environment of one poll iteration: the reconciler environment, the
research-status endpoint (which can raise), and the current time. -/
structure PollEnv where
  recon : ReconcilerEnv
  statusCheck : Str → Except Unit TaskPayload
  now : Int

/-- `status_data.get("status") in ("succeeded", "completed")`. -/
def pollSucceeded (d : TaskPayload) : Bool :=
  decide (d.status = some (S "succeeded")) || decide (d.status = some (S "completed"))

/-- The body of the `for task in pending` loop of `_poll_once`: only
`research` tasks are status-checked; an error from the status check is
logged and skipped; a succeeded status goes through
`handle_yutori_completion`.  The second component accumulates the
provider ids whose status was actually re-checked. -/
def pollStep (env : PollEnv) (acc : SysState × List Str) (t : TaskRecord) :
    SysState × List Str :=
  if t.task_type = S "research" then
    match env.statusCheck t.provider_task_id with
    | .error _ => (acc.1, acc.2 ++ [t.provider_task_id])
    | .ok d =>
      if pollSucceeded d then
        ((handle_yutori_completion env.recon acc.1 t.provider_task_id d
            t.interest t.user_id).2,
         acc.2 ++ [t.provider_task_id])
      else (acc.1, acc.2 ++ [t.provider_task_id])
  else acc

/-- `_poll_once`: snapshot the stale pending tasks, then run the loop body
over them. -/
def poll_once (env : PollEnv) (st : SysState) : SysState × List Str :=
  (get_pending_tasks st.tasks env.now STALE_THRESHOLD_MINUTES).foldl (pollStep env) (st, [])

theorem completeTaskList_cons (ptid : Str) (rj : TaskPayload) (a : TaskRecord)
    (t : List TaskRecord) :
    completeTaskList ptid rj (a :: t)
      = if a.provider_task_id = ptid ∧ a.status ≠ .completed
        then ({ a with status := .completed, result_json := some rj,
                       attempts := a.attempts + 1 } :: t, true)
        else (a :: (completeTaskList ptid rj t).1, (completeTaskList ptid rj t).2) := rfl

theorem completeTaskList_true_iff (ptid : Str) (rj : TaskPayload) (l : List TaskRecord) :
    (completeTaskList ptid rj l).2 = true
      ↔ ∃ t ∈ l, t.provider_task_id = ptid ∧ t.status ≠ .completed := by
  induction l with
  | nil => simp [completeTaskList]
  | cons a t ih =>
      by_cases ha : a.provider_task_id = ptid ∧ a.status ≠ .completed
      · constructor
        · intro _
          exact ⟨a, List.mem_cons_self a t, ha⟩
        · intro _
          rw [completeTaskList_cons, if_pos ha]
      · have hstep : (completeTaskList ptid rj (a :: t)).2 = (completeTaskList ptid rj t).2 := by
          rw [completeTaskList_cons, if_neg ha]
        rw [hstep, ih]
        constructor
        · rintro ⟨x, hx, hxx⟩
          exact ⟨x, List.mem_cons_of_mem a hx, hxx⟩
        · rintro ⟨x, hx, hxx⟩
          rcases List.mem_cons.mp hx with rfl | hx2
          · exact absurd hxx ha
          · exact ⟨x, hx2, hxx⟩

theorem handle_eq_of_false (env : ReconcilerEnv) (st : SysState) (ptid : Str)
    (p : TaskPayload) (i u : Str) (h : (completeTaskList ptid p st.tasks).2 = false) :
    handle_yutori_completion env st ptid p i u
      = (false, { st with tasks := (completeTaskList ptid p st.tasks).1 }) := by
  unfold handle_yutori_completion complete_task_record
  simp only [h]
  exact if_pos trivial

theorem handle_of_true (env : ReconcilerEnv) (st : SysState) (ptid : Str)
    (p : TaskPayload) (i u : Str) (h : (completeTaskList ptid p st.tasks).2 = true) :
    (handle_yutori_completion env st ptid p i u).1 = true
    ∧ ((handle_yutori_completion env st ptid p i u).2).tasks
        = (completeTaskList ptid p st.tasks).1
    ∧ ((handle_yutori_completion env st ptid p i u).2).completionRuns
        = st.completionRuns + 1 := by
  unfold handle_yutori_completion complete_task_record
  simp only [h]
  split
  · next hcond => exact absurd hcond (by simp)
  · split <;> exact ⟨rfl, rfl, rfl⟩

theorem completeTaskList_map_id (ptid : Str) (rj : TaskPayload) (l : List TaskRecord) :
    ((completeTaskList ptid rj l).1).map TaskRecord.provider_task_id
      = l.map TaskRecord.provider_task_id := by
  induction l with
  | nil => rfl
  | cons a t ih =>
      by_cases ha : a.provider_task_id = ptid ∧ a.status ≠ .completed
      · simp only [completeTaskList, if_pos ha, List.map_cons]
      · simp only [completeTaskList, if_neg ha, List.map_cons, ih]

theorem completeTaskList_all_completed (ptid : Str) (rj : TaskPayload) (l : List TaskRecord)
    (hu : (l.map TaskRecord.provider_task_id).Nodup) :
    ∀ t2 ∈ (completeTaskList ptid rj l).1, t2.provider_task_id = ptid →
      t2.status = .completed := by
  induction l with
  | nil => intro t2 h2; simp [completeTaskList] at h2
  | cons a t ih =>
      simp only [List.map_cons, List.nodup_cons] at hu
      intro t2 h2 hid
      by_cases ha : a.provider_task_id = ptid ∧ a.status ≠ .completed
      · simp only [completeTaskList, if_pos ha, List.mem_cons] at h2
        rcases h2 with rfl | h2
        · rfl
        · exfalso
          apply hu.1
          rw [ha.1, ← hid]
          exact List.mem_map_of_mem TaskRecord.provider_task_id h2
      · simp only [completeTaskList, if_neg ha, List.mem_cons] at h2
        rcases h2 with rfl | h2
        · rcases not_and_or.mp ha with h | h
          · exact absurd hid h
          · exact not_not.mp h
        · exact ih hu.2 t2 h2 hid

theorem completeTaskList_preserves_completed (tid ptid : Str) (rj : TaskPayload)
    (l : List TaskRecord)
    (hP : ∀ t ∈ l, t.provider_task_id = tid → t.status = .completed) :
    ∀ t2 ∈ (completeTaskList ptid rj l).1, t2.provider_task_id = tid →
      t2.status = .completed := by
  induction l with
  | nil => intro t2 h2; simp [completeTaskList] at h2
  | cons a t ih =>
      intro t2 h2 hid
      have hPt : ∀ x ∈ t, x.provider_task_id = tid → x.status = .completed :=
        fun x hx => hP x (List.mem_cons_of_mem a hx)
      by_cases ha : a.provider_task_id = ptid ∧ a.status ≠ .completed
      · simp only [completeTaskList, if_pos ha, List.mem_cons] at h2
        rcases h2 with rfl | h2
        · rfl
        · exact hP t2 (List.mem_cons_of_mem a h2) hid
      · simp only [completeTaskList, if_neg ha, List.mem_cons] at h2
        rcases h2 with rfl | h2
        · exact hP t2 (List.mem_cons_self _ _) hid
        · exact ih hPt t2 h2 hid

theorem find?_task_unique (tasks : List TaskRecord) (tid : Str) (task : TaskRecord)
    (hu : (tasks.map TaskRecord.provider_task_id).Nodup)
    (hfind : tasks.find? (fun t => decide (t.provider_task_id = tid)) = some task) :
    ∀ t ∈ tasks, t.provider_task_id = tid → t = task := by
  induction tasks with
  | nil => simp at hfind
  | cons a rest ih =>
      simp only [List.map_cons, List.nodup_cons] at hu
      by_cases ha : a.provider_task_id = tid
      · rw [List.find?_cons_of_pos _ (by simpa using ha)] at hfind
        have : a = task := by simpa using hfind
        subst this
        intro t ht hid
        rcases List.mem_cons.mp ht with rfl | ht2
        · rfl
        · exfalso
          apply hu.1
          rw [ha, ← hid]
          exact List.mem_map_of_mem TaskRecord.provider_task_id ht2
      · rw [List.find?_cons_of_neg _ (by simpa using ha)] at hfind
        intro t ht hid
        rcases List.mem_cons.mp ht with rfl | ht2
        · exact absurd hid ha
        · exact ih hu.2 hfind t ht2 hid

theorem completeTaskList_of_false (ptid : Str) (rj : TaskPayload) (l : List TaskRecord)
    (h : (completeTaskList ptid rj l).2 = false) : (completeTaskList ptid rj l).1 = l := by
  induction l with
  | nil => rfl
  | cons a t ih =>
      by_cases ha : a.provider_task_id = ptid ∧ a.status ≠ .completed
      · rw [completeTaskList_cons, if_pos ha] at h
        simp at h
      · rw [completeTaskList_cons, if_neg ha] at h ⊢
        rw [ih h]

/-- Claim C8: for every inbound webhook POST, a missing task identifier
yields `ignored`, an unknown task yields `ignored`, an already-completed
task yields `duplicate`, and otherwise the response is `processed`; in all
four cases the handler returns an HTTP success (`Except.ok`), never an
error. -/
theorem yutori_webhook_cases (env : ReconcilerEnv) (st : SysState) (payload : TaskPayload)
    (hu : (st.tasks.map TaskRecord.provider_task_id).Nodup) :
    ∃ resp st2, yutori_webhook env st payload = .ok (resp, st2)
    ∧ (getTaskId payload = none → resp = .ignored)
    ∧ (∀ tid, getTaskId payload = some tid →
        st.tasks.find? (fun t => decide (t.provider_task_id = tid)) = none →
        resp = .ignored)
    ∧ (∀ tid task, getTaskId payload = some tid →
        st.tasks.find? (fun t => decide (t.provider_task_id = tid)) = some task →
        (task.status = .completed → resp = .duplicate)
        ∧ (task.status ≠ .completed → resp = .processed)) := by
  rcases hid : getTaskId payload with _ | tid
  · refine ⟨.ignored, st, ?_, fun _ => rfl, fun _ _ _ => rfl, ?_⟩
    · simp only [yutori_webhook, hid]
    · intro tid2 task2 h1 _
      exact absurd h1 (by simp)
  · rcases hfind : st.tasks.find? (fun t => decide (t.provider_task_id = tid)) with _ | task
    · refine ⟨.ignored, st, ?_, by simp, fun _ _ _ => rfl, ?_⟩
      · simp only [yutori_webhook, hid, hfind]
      · intro tid2 task2 h1 h2
        obtain rfl : tid = tid2 := Option.some_inj.mp h1
        rw [hfind] at h2
        exact absurd h2 (by simp)
    · refine ⟨if (handle_yutori_completion env st tid payload task.interest task.user_id).1
                then .processed else .duplicate,
              (handle_yutori_completion env st tid payload task.interest task.user_id).2,
              ?_, by simp, ?_, ?_⟩
      · simp only [yutori_webhook, hid, hfind]
      · intro tid2 h1 h2
        obtain rfl : tid = tid2 := Option.some_inj.mp h1
        rw [hfind] at h2
        exact absurd h2 (by simp)
      · intro tid2 task2 h1 h2
        obtain rfl : tid = tid2 := Option.some_inj.mp h1
        rw [hfind] at h2
        obtain rfl : task = task2 := Option.some_inj.mp h2
        constructor
        · intro hcomp
          have hfalse : (completeTaskList tid payload st.tasks).2 = false := by
            rw [← Bool.not_eq_true, completeTaskList_true_iff]
            rintro ⟨x, hx, hxid, hxst⟩
            have hxt : x = task := find?_task_unique st.tasks tid task hu hfind x hx hxid
            exact hxst (hxt ▸ hcomp)
          rw [handle_eq_of_false env st tid payload task.interest task.user_id hfalse]
          rfl
        · intro hncomp
          have htrue : (completeTaskList tid payload st.tasks).2 = true := by
            rw [completeTaskList_true_iff]
            exact ⟨task, List.mem_of_find?_eq_some hfind, by simpa using List.find?_some hfind,
              hncomp⟩
          rw [(handle_of_true env st tid payload task.interest task.user_id htrue).1]
          rfl

/-- Witness for C8: a store holding one pending research task. -/
theorem yutori_webhook_cases_witness :
    ∃ resp st2,
      yutori_webhook ⟨fun _ => []⟩
          ⟨[⟨S "t1", S "research", S "climbing", S "u1", .pending, 0, 0, none⟩],
            GraphState.empty, 0, 0⟩
          ⟨some (S "t1"), none, none, none, some (.str (S "news"))⟩ = .ok (resp, st2)
      ∧ (getTaskId ⟨some (S "t1"), none, none, none, some (.str (S "news"))⟩ = none →
          resp = .ignored)
      ∧ (∀ tid, getTaskId ⟨some (S "t1"), none, none, none, some (.str (S "news"))⟩ = some tid →
          List.find? (fun t => decide (t.provider_task_id = tid))
              [(⟨S "t1", S "research", S "climbing", S "u1", .pending, 0, 0, none⟩ : TaskRecord)]
            = none →
          resp = .ignored)
      ∧ (∀ tid task,
          getTaskId ⟨some (S "t1"), none, none, none, some (.str (S "news"))⟩ = some tid →
          List.find? (fun t => decide (t.provider_task_id = tid))
              [(⟨S "t1", S "research", S "climbing", S "u1", .pending, 0, 0, none⟩ : TaskRecord)]
            = some task →
          (task.status = .completed → resp = .duplicate)
          ∧ (task.status ≠ .completed → resp = .processed)) :=
  yutori_webhook_cases ⟨fun _ => []⟩
    ⟨[⟨S "t1", S "research", S "climbing", S "u1", .pending, 0, 0, none⟩],
      GraphState.empty, 0, 0⟩
    ⟨some (S "t1"), none, none, none, some (.str (S "news"))⟩ (by decide)

/-- Claim C1: for a provider task id with an existing, not-yet-completed
TaskRecord, delivering one completion signal through the webhook route and
one through the poll loop's shared completion path
(`handle_yutori_completion`) in either order makes exactly the first
invocation observe a new completion (webhook response `processed`) and the
second a duplicate (webhook response `duplicate`).  The guarded
fact-extraction-and-merge block (counted by `completionRuns`) runs exactly
once, during the first invocation; the second invocation returns the state
unchanged, so it performs no extraction and no merge. -/
theorem completion_exactly_once (env : ReconcilerEnv) (st : SysState) (ptid : Str)
    (wp pp : TaskPayload) (interest uid : Str)
    (hwp : getTaskId wp = some ptid)
    (hu : (st.tasks.map TaskRecord.provider_task_id).Nodup)
    (hex : ∃ t ∈ st.tasks, t.provider_task_id = ptid)
    (hnc : ∀ t ∈ st.tasks, t.provider_task_id = ptid → t.status ≠ .completed) :
    (∃ st1, yutori_webhook env st wp = .ok (.processed, st1)
      ∧ st1.completionRuns = st.completionRuns + 1
      ∧ handle_yutori_completion env st1 ptid pp interest uid = (false, st1))
    ∧ (handle_yutori_completion env st ptid pp interest uid).1 = true
    ∧ ((handle_yutori_completion env st ptid pp interest uid).2).completionRuns
        = st.completionRuns + 1
    ∧ yutori_webhook env ((handle_yutori_completion env st ptid pp interest uid).2) wp
        = .ok (.duplicate, (handle_yutori_completion env st ptid pp interest uid).2) := by
  obtain ⟨t0, ht0, hid0⟩ := hex
  have hsome : (st.tasks.find? (fun t => decide (t.provider_task_id = ptid))).isSome := by
    rw [List.find?_isSome]
    exact ⟨t0, ht0, by simpa using hid0⟩
  obtain ⟨task0, hfind⟩ := Option.isSome_iff_exists.mp hsome
  refine ⟨?_, ?_, ?_, ?_⟩
  · -- webhook first, then poll-side completion
    have htrue : (completeTaskList ptid wp st.tasks).2 = true :=
      (completeTaskList_true_iff _ _ _).mpr ⟨t0, ht0, hid0, hnc t0 ht0 hid0⟩
    have hof := handle_of_true env st ptid wp task0.interest task0.user_id htrue
    refine ⟨(handle_yutori_completion env st ptid wp task0.interest task0.user_id).2,
            ?_, hof.2.2, ?_⟩
    · simp only [yutori_webhook, hwp, hfind]
      rw [hof.1]
      rfl
    · have hfalse : (completeTaskList ptid pp
          ((handle_yutori_completion env st ptid wp task0.interest task0.user_id).2).tasks).2
            = false := by
        rw [← Bool.not_eq_true, completeTaskList_true_iff]
        rintro ⟨x, hx, hxid, hxst⟩
        rw [hof.2.1] at hx
        exact hxst (completeTaskList_all_completed ptid wp st.tasks hu x hx hxid)
      have heq := handle_eq_of_false env
        ((handle_yutori_completion env st ptid wp task0.interest task0.user_id).2)
        ptid pp interest uid hfalse
      rw [completeTaskList_of_false ptid pp _ hfalse] at heq
      exact heq
  · exact (handle_of_true env st ptid pp interest uid
      ((completeTaskList_true_iff _ _ _).mpr ⟨t0, ht0, hid0, hnc t0 ht0 hid0⟩)).1
  · exact (handle_of_true env st ptid pp interest uid
      ((completeTaskList_true_iff _ _ _).mpr ⟨t0, ht0, hid0, hnc t0 ht0 hid0⟩)).2.2
  · -- poll-side completion first, then webhook
    have hof := handle_of_true env st ptid pp interest uid
      ((completeTaskList_true_iff _ _ _).mpr ⟨t0, ht0, hid0, hnc t0 ht0 hid0⟩)
    have hmem : ptid ∈
        ((handle_yutori_completion env st ptid pp interest uid).2).tasks.map
          TaskRecord.provider_task_id := by
      rw [hof.2.1, completeTaskList_map_id]
      exact hid0 ▸ List.mem_map_of_mem TaskRecord.provider_task_id ht0
    have hsome2 : (((handle_yutori_completion env st ptid pp interest uid).2).tasks.find?
        (fun t => decide (t.provider_task_id = ptid))).isSome := by
      rw [List.find?_isSome]
      obtain ⟨t2, ht2, hids⟩ := List.mem_map.mp hmem
      exact ⟨t2, ht2, by simpa using hids⟩
    obtain ⟨task1, hfind1⟩ := Option.isSome_iff_exists.mp hsome2
    have hfalse2 : (completeTaskList ptid wp
        ((handle_yutori_completion env st ptid pp interest uid).2).tasks).2 = false := by
      rw [← Bool.not_eq_true, completeTaskList_true_iff]
      rintro ⟨x, hx, hxid, hxst⟩
      rw [hof.2.1] at hx
      exact hxst (completeTaskList_all_completed ptid pp st.tasks hu x hx hxid)
    have heq := handle_eq_of_false env
      ((handle_yutori_completion env st ptid pp interest uid).2)
      ptid wp task1.interest task1.user_id hfalse2
    rw [completeTaskList_of_false ptid wp _ hfalse2] at heq
    simp only [yutori_webhook, hwp, hfind1]
    rw [heq]
    rfl

/-- Witness for C1: one pending research TaskRecord `t1`, a webhook payload
carrying `task_id = "t1"` and a poll payload with a string result. -/
theorem completion_exactly_once_witness :
    (∃ st1, yutori_webhook ⟨fun _ => []⟩
          ⟨[⟨S "t1", S "research", S "climbing", S "u1", .pending, 0, 0, none⟩],
            GraphState.empty, 0, 0⟩
          ⟨some (S "t1"), none, none, none, some (.str (S "news"))⟩ = .ok (.processed, st1)
      ∧ st1.completionRuns =
          (⟨[⟨S "t1", S "research", S "climbing", S "u1", .pending, 0, 0, none⟩],
            GraphState.empty, 0, 0⟩ : SysState).completionRuns + 1
      ∧ handle_yutori_completion ⟨fun _ => []⟩ st1 (S "t1")
          ⟨none, some (S "t1"), some (S "succeeded"), none, some (.str (S "poll news"))⟩
          (S "climbing") (S "u1") = (false, st1))
    ∧ (handle_yutori_completion ⟨fun _ => []⟩
        ⟨[⟨S "t1", S "research", S "climbing", S "u1", .pending, 0, 0, none⟩],
          GraphState.empty, 0, 0⟩ (S "t1")
        ⟨none, some (S "t1"), some (S "succeeded"), none, some (.str (S "poll news"))⟩
        (S "climbing") (S "u1")).1 = true
    ∧ ((handle_yutori_completion ⟨fun _ => []⟩
        ⟨[⟨S "t1", S "research", S "climbing", S "u1", .pending, 0, 0, none⟩],
          GraphState.empty, 0, 0⟩ (S "t1")
        ⟨none, some (S "t1"), some (S "succeeded"), none, some (.str (S "poll news"))⟩
        (S "climbing") (S "u1")).2).completionRuns =
          (⟨[⟨S "t1", S "research", S "climbing", S "u1", .pending, 0, 0, none⟩],
            GraphState.empty, 0, 0⟩ : SysState).completionRuns + 1
    ∧ yutori_webhook ⟨fun _ => []⟩
        ((handle_yutori_completion ⟨fun _ => []⟩
          ⟨[⟨S "t1", S "research", S "climbing", S "u1", .pending, 0, 0, none⟩],
            GraphState.empty, 0, 0⟩ (S "t1")
          ⟨none, some (S "t1"), some (S "succeeded"), none, some (.str (S "poll news"))⟩
          (S "climbing") (S "u1")).2)
        ⟨some (S "t1"), none, none, none, some (.str (S "news"))⟩
        = .ok (.duplicate,
            (handle_yutori_completion ⟨fun _ => []⟩
              ⟨[⟨S "t1", S "research", S "climbing", S "u1", .pending, 0, 0, none⟩],
                GraphState.empty, 0, 0⟩ (S "t1")
              ⟨none, some (S "t1"), some (S "succeeded"), none, some (.str (S "poll news"))⟩
              (S "climbing") (S "u1")).2) :=
  completion_exactly_once ⟨fun _ => []⟩
    ⟨[⟨S "t1", S "research", S "climbing", S "u1", .pending, 0, 0, none⟩],
      GraphState.empty, 0, 0⟩ (S "t1")
    ⟨some (S "t1"), none, none, none, some (.str (S "news"))⟩
    ⟨none, some (S "t1"), some (S "succeeded"), none, some (.str (S "poll news"))⟩
    (S "climbing") (S "u1") (by decide) (by decide)
    ⟨⟨S "t1", S "research", S "climbing", S "u1", .pending, 0, 0, none⟩,
      by decide, by decide⟩
    (by decide)

theorem handle_tasks (env : ReconcilerEnv) (st : SysState) (ptid : Str) (p : TaskPayload)
    (i u : Str) :
    ((handle_yutori_completion env st ptid p i u).2).tasks
      = (completeTaskList ptid p st.tasks).1 := by
  cases h : (completeTaskList ptid p st.tasks).2
  · rw [handle_eq_of_false env st ptid p i u h]
  · exact (handle_of_true env st ptid p i u h).2.1

theorem pollStep_not_research (env : PollEnv) (acc : SysState × List Str) (t : TaskRecord)
    (h : ¬ t.task_type = S "research") : pollStep env acc t = acc := by
  unfold pollStep
  rw [if_neg h]

theorem pollStep_error (env : PollEnv) (acc : SysState × List Str) (t : TaskRecord)
    (h : t.task_type = S "research") (e : Unit)
    (hc : env.statusCheck t.provider_task_id = .error e) :
    pollStep env acc t = (acc.1, acc.2 ++ [t.provider_task_id]) := by
  unfold pollStep
  rw [if_pos h, hc]

theorem pollStep_ok_succ (env : PollEnv) (acc : SysState × List Str) (t : TaskRecord)
    (h : t.task_type = S "research") (d : TaskPayload)
    (hc : env.statusCheck t.provider_task_id = .ok d) (hs : pollSucceeded d = true) :
    pollStep env acc t
      = ((handle_yutori_completion env.recon acc.1 t.provider_task_id d
            t.interest t.user_id).2,
         acc.2 ++ [t.provider_task_id]) := by
  unfold pollStep
  rw [if_pos h, hc]
  simp only [hs]
  rw [if_pos trivial]

theorem pollStep_ok_nosucc (env : PollEnv) (acc : SysState × List Str) (t : TaskRecord)
    (h : t.task_type = S "research") (d : TaskPayload)
    (hc : env.statusCheck t.provider_task_id = .ok d) (hs : pollSucceeded d = false) :
    pollStep env acc t = (acc.1, acc.2 ++ [t.provider_task_id]) := by
  unfold pollStep
  rw [if_pos h, hc]
  simp only [hs]
  rw [if_neg (by simp)]

theorem pollStep_tasks_map_id (env : PollEnv) (acc : SysState × List Str) (t : TaskRecord) :
    ((pollStep env acc t).1).tasks.map TaskRecord.provider_task_id
      = (acc.1).tasks.map TaskRecord.provider_task_id := by
  by_cases h : t.task_type = S "research"
  · rcases hc : env.statusCheck t.provider_task_id with e | d
    · rw [pollStep_error env acc t h e hc]
    · cases hs : pollSucceeded d
      · rw [pollStep_ok_nosucc env acc t h d hc hs]
      · rw [pollStep_ok_succ env acc t h d hc hs]
        rw [show ((handle_yutori_completion env.recon acc.1 t.provider_task_id d
              t.interest t.user_id).2, acc.2 ++ [t.provider_task_id]).1
            = (handle_yutori_completion env.recon acc.1 t.provider_task_id d
              t.interest t.user_id).2 from rfl]
        rw [handle_tasks, completeTaskList_map_id]
  · rw [pollStep_not_research env acc t h]

theorem pollStep_preserves_completed (env : PollEnv) (tid : Str)
    (acc : SysState × List Str) (t : TaskRecord)
    (hP : ∀ t2 ∈ (acc.1).tasks, t2.provider_task_id = tid → t2.status = .completed) :
    ∀ t2 ∈ ((pollStep env acc t).1).tasks, t2.provider_task_id = tid →
      t2.status = .completed := by
  by_cases h : t.task_type = S "research"
  · rcases hc : env.statusCheck t.provider_task_id with e | d
    · rw [pollStep_error env acc t h e hc]
      exact hP
    · cases hs : pollSucceeded d
      · rw [pollStep_ok_nosucc env acc t h d hc hs]
        exact hP
      · rw [pollStep_ok_succ env acc t h d hc hs]
        intro t2 h2 hid
        rw [handle_tasks] at h2
        exact completeTaskList_preserves_completed tid t.provider_task_id d (acc.1).tasks hP
          t2 h2 hid
  · rw [pollStep_not_research env acc t h]
    exact hP

theorem foldl_pollStep_snd (env : PollEnv) :
    ∀ (l : List TaskRecord) (st0 : SysState) (acc : List Str),
      (l.foldl (pollStep env) (st0, acc)).2
        = acc ++ (l.filter (fun t => decide (t.task_type = S "research"))).map
            TaskRecord.provider_task_id := by
  intro l
  induction l with
  | nil => intro st0 acc; simp
  | cons a rest ih =>
      intro st0 acc
      by_cases h : a.task_type = S "research"
      · have hfilter : (a :: rest).filter (fun t => decide (t.task_type = S "research"))
            = a :: rest.filter (fun t => decide (t.task_type = S "research")) := by
          simp [List.filter_cons, h]
        rcases hc : env.statusCheck a.provider_task_id with e | d
        · rw [List.foldl_cons, pollStep_error env (st0, acc) a h e hc, hfilter]
          simp only [List.map_cons, ih]
          simp
        · cases hs : pollSucceeded d
          · rw [List.foldl_cons, pollStep_ok_nosucc env (st0, acc) a h d hc hs, hfilter]
            simp only [List.map_cons, ih]
            simp
          · rw [List.foldl_cons, pollStep_ok_succ env (st0, acc) a h d hc hs, hfilter]
            simp only [List.map_cons, ih]
            simp
      · have hfilter : (a :: rest).filter (fun t => decide (t.task_type = S "research"))
            = rest.filter (fun t => decide (t.task_type = S "research")) := by
          simp [List.filter_cons, h]
        rw [List.foldl_cons, pollStep_not_research env (st0, acc) a h, hfilter, ih]

theorem foldl_pollStep_tasks_map_id (env : PollEnv) :
    ∀ (l : List TaskRecord) (acc : SysState × List Str),
      ((l.foldl (pollStep env) acc).1).tasks.map TaskRecord.provider_task_id
        = (acc.1).tasks.map TaskRecord.provider_task_id := by
  intro l
  induction l with
  | nil => intro acc; rfl
  | cons a rest ih =>
      intro acc
      rw [List.foldl_cons, ih, pollStep_tasks_map_id]

theorem foldl_pollStep_preserves_completed (env : PollEnv) (tid : Str) :
    ∀ (l : List TaskRecord) (acc : SysState × List Str),
      (∀ t2 ∈ (acc.1).tasks, t2.provider_task_id = tid → t2.status = .completed) →
      ∀ t2 ∈ ((l.foldl (pollStep env) acc).1).tasks, t2.provider_task_id = tid →
        t2.status = .completed := by
  intro l
  induction l with
  | nil => intro acc h; exact h
  | cons a rest ih =>
      intro acc h
      rw [List.foldl_cons]
      exact ih (pollStep env acc a) (pollStep_preserves_completed env tid acc a h)

/-- Counterexample to claim C5 as stated: a stale pending `scouting`
TaskRecord is returned by `get_pending_tasks`, and the provider would report
success for it, yet `_poll_once` never re-checks its status (the loop body
only queries `research` tasks): no id is checked and the state — including
the still-pending record — is unchanged. -/
theorem poll_skips_scouting_counterexample :
    (⟨S "s1", S "scouting", S "yoga", S "u1", .pending, 0, 0, none⟩ : TaskRecord)
        ∈ get_pending_tasks
            [⟨S "s1", S "scouting", S "yoga", S "u1", .pending, 0, 0, none⟩]
            100 STALE_THRESHOLD_MINUTES
    ∧ poll_once
        ⟨⟨fun _ => []⟩,
          fun _ => .ok ⟨none, none, some (S "succeeded"), none, some (.str (S "r"))⟩, 100⟩
        ⟨[⟨S "s1", S "scouting", S "yoga", S "u1", .pending, 0, 0, none⟩],
          GraphState.empty, 0, 0⟩
      = (⟨[⟨S "s1", S "scouting", S "yoga", S "u1", .pending, 0, 0, none⟩],
          GraphState.empty, 0, 0⟩, []) := by
  exact ⟨by decide, rfl⟩

/-- Claim C5 (amended): each poll iteration re-checks with the provider the
status of every stale pending/running task **of task type `research`** —
exactly those ids are queried, regardless of per-task errors, so an error on
one task never halts the loop or prevents the other checks; and a provider
status of `succeeded` routes through the shared completion path
(`handle_yutori_completion`), leaving that task's record completed. -/
theorem poll_once_research (env : PollEnv) (st : SysState)
    (hu : (st.tasks.map TaskRecord.provider_task_id).Nodup) :
    (poll_once env st).2
      = ((get_pending_tasks st.tasks env.now STALE_THRESHOLD_MINUTES).filter
          (fun t => decide (t.task_type = S "research"))).map TaskRecord.provider_task_id
    ∧ ∀ t ∈ get_pending_tasks st.tasks env.now STALE_THRESHOLD_MINUTES,
        t.task_type = S "research" →
        ∀ d, env.statusCheck t.provider_task_id = .ok d → pollSucceeded d = true →
        ∀ t2 ∈ ((poll_once env st).1).tasks, t2.provider_task_id = t.provider_task_id →
          t2.status = .completed := by
  constructor
  · exact foldl_pollStep_snd env _ st []
  · unfold poll_once
    have hgen : ∀ (l : List TaskRecord) (st0 : SysState) (acc : List Str),
        (st0.tasks.map TaskRecord.provider_task_id).Nodup →
        ∀ t ∈ l, t.task_type = S "research" →
        ∀ d, env.statusCheck t.provider_task_id = .ok d → pollSucceeded d = true →
        ∀ t2 ∈ ((l.foldl (pollStep env) (st0, acc)).1).tasks,
          t2.provider_task_id = t.provider_task_id → t2.status = .completed := by
      intro l
      induction l with
      | nil => intro st0 acc _ t ht; exact absurd ht (List.not_mem_nil t)
      | cons a rest ih =>
          intro st0 acc hu0 t ht hres d hc hs
          rcases List.mem_cons.mp ht with rfl | ht2
          · -- the task at the head of the loop: completed by its own step,
            -- preserved by the remaining steps
            rw [List.foldl_cons, pollStep_ok_succ env (st0, acc) t hres d hc hs]
            apply foldl_pollStep_preserves_completed env t.provider_task_id rest
            intro t2 h2 hid
            rw [show ((handle_yutori_completion env.recon (st0, acc).1 t.provider_task_id d
                  t.interest t.user_id).2, acc ++ [t.provider_task_id]).1
                = (handle_yutori_completion env.recon st0 t.provider_task_id d
                  t.interest t.user_id).2 from rfl] at h2
            rw [handle_tasks] at h2
            exact completeTaskList_all_completed t.provider_task_id d st0.tasks hu0 t2 h2 hid
          · rw [List.foldl_cons]
            rcases hps : pollStep env (st0, acc) a with ⟨st1, acc1⟩
            have hnodup1 : (st1.tasks.map TaskRecord.provider_task_id).Nodup := by
              have := pollStep_tasks_map_id env (st0, acc) a
              rw [hps] at this
              rw [show (st1, acc1).1 = st1 from rfl] at this
              rw [this]
              exact hu0
            exact ih st1 acc1 hnodup1 t ht2 hres d hc hs
    exact fun t ht hres d hc hs =>
      hgen (get_pending_tasks st.tasks env.now STALE_THRESHOLD_MINUTES) st [] hu t ht hres d hc hs

/-- Witness for C5 (amended): one stale pending research task whose status
check reports `succeeded`. -/
theorem poll_once_research_witness :
    (poll_once
        ⟨⟨fun _ => []⟩,
          fun _ => .ok ⟨none, none, some (S "succeeded"), none, some (.str (S "r"))⟩, 100⟩
        ⟨[⟨S "t1", S "research", S "climbing", S "u1", .pending, 0, 0, none⟩],
          GraphState.empty, 0, 0⟩).2
      = ((get_pending_tasks
            [⟨S "t1", S "research", S "climbing", S "u1", .pending, 0, 0, none⟩]
            100 STALE_THRESHOLD_MINUTES).filter
          (fun t => decide (t.task_type = S "research"))).map TaskRecord.provider_task_id
    ∧ ∀ t ∈ get_pending_tasks
          [⟨S "t1", S "research", S "climbing", S "u1", .pending, 0, 0, none⟩]
          100 STALE_THRESHOLD_MINUTES,
        t.task_type = S "research" →
        ∀ d, (fun (_ : Str) =>
            (.ok ⟨none, none, some (S "succeeded"), none, some (.str (S "r"))⟩ :
              Except Unit TaskPayload)) t.provider_task_id = .ok d →
          pollSucceeded d = true →
        ∀ t2 ∈ ((poll_once
            ⟨⟨fun _ => []⟩,
              fun _ => .ok ⟨none, none, some (S "succeeded"), none, some (.str (S "r"))⟩, 100⟩
            ⟨[⟨S "t1", S "research", S "climbing", S "u1", .pending, 0, 0, none⟩],
              GraphState.empty, 0, 0⟩).1).tasks,
          t2.provider_task_id = t.provider_task_id → t2.status = .completed :=
  poll_once_research
    ⟨⟨fun _ => []⟩,
      fun _ => .ok ⟨none, none, some (S "succeeded"), none, some (.str (S "r"))⟩, 100⟩
    ⟨[⟨S "t1", S "research", S "climbing", S "u1", .pending, 0, 0, none⟩],
      GraphState.empty, 0, 0⟩
    (by decide)

/-! ## Vendor submission with tenacity retry (`app/services/yutori.py`)

`submit_research_task` / `submit_scouting_task` are decorated with
`@retry(stop=stop_after_attempt(settings.max_retries),
        wait=wait_exponential(multiplier=.., max=..) + wait_random(0, 2),
        retry=retry_if_exception_type((httpx.HTTPStatusError, httpx.TimeoutException)))`
and call `resp.raise_for_status()` on the POST response. -/

inductive VendorErr
  | timeoutException
  | httpStatusError (code : Nat)
  | otherTransportError
deriving DecidableEq

/-- `retry_if_exception_type((httpx.HTTPStatusError, httpx.TimeoutException))`:
which exceptions tenacity retries. -/
def shouldRetry : VendorErr → Bool
  | .timeoutException => true
  | .httpStatusError _ => true
  | .otherTransportError => false

/-- The raw outcome of one network attempt. -/
inductive AttemptResult
  | timeout
  | response (code : Nat)
  | transportFailure
deriving DecidableEq

/-- One decorated-function body execution: a timeout raises
`httpx.TimeoutException`, a non-timeout transport failure raises another
`httpx` error, and `resp.raise_for_status()` raises `httpx.HTTPStatusError`
for every non-2xx status code — 4xx and 5xx alike. -/
def submitAttempt (raw : AttemptResult) (body : α) : Except VendorErr α :=
  match raw with
  | .timeout => .error .timeoutException
  | .transportFailure => .error .otherTransportError
  | .response code =>
      if 200 ≤ code ∧ code < 300 then .ok body else .error (.httpStatusError code)

/-- The tenacity retry loop: `attempt` is the current attempt number,
`remaining` the number of retries still allowed by
`stop_after_attempt`.  Returns the final outcome and the number of calls
made. -/
def tenacityLoop (outcome : Nat → Except VendorErr α) :
    Nat → Nat → Except VendorErr α × Nat
  | attempt, 0 => (outcome attempt, attempt)
  | attempt, r + 1 =>
    match outcome attempt with
    | .ok v => (.ok v, attempt)
    | .error e =>
        if shouldRetry e then tenacityLoop outcome (attempt + 1) r
        else (.error e, attempt)

def tenacityRun (maxAttempts : Nat) (outcome : Nat → Except VendorErr α) :
    Except VendorErr α × Nat :=
  tenacityLoop outcome 1 (maxAttempts - 1)

/-- `submit_research_task` under the retry decorator, abstracted over the
per-attempt network outcome (the response body is irrelevant to the retry
policy). -/
def submit_research_task (maxAttempts : Nat) (net : Nat → AttemptResult) :
    Except VendorErr Unit × Nat :=
  tenacityRun maxAttempts (fun k => submitAttempt (net k) ())

/-- `wait_exponential(multiplier, max=maxW) + wait_random(0, 2)`: the sleep
before the retry following attempt number `attempt`, with `jitter ∈ [0, 2)`. -/
def retryWait (multiplier maxW : ℚ) (attempt : Nat) (jitter : ℚ) : ℚ :=
  max 0 (min (multiplier * 2 ^ attempt) maxW) + jitter

/-! ## Ingest jobs: store, cooldown and route (`graph.py`, `routers/ingest.py`) -/

inductive JobStatus
  | queued
  | processing
  | completed
  | failed
deriving DecidableEq

structure IngestJob where
  job_id : Str
  username : Str
  user_id : Str
  status : JobStatus
  created_at : Int
deriving DecidableEq

/-- `create_ingest_job`: a fresh node with status `queued`. -/
def create_ingest_job (jobs : List IngestJob) (jobId username userId : Str)
    (now : Int) : List IngestJob :=
  jobs ++ [⟨jobId, username, userId, .queued, now⟩]

/-- `check_cooldown(username)`:
`MATCH (j:IngestJob {username: $username})
 WHERE j.status IN ['queued', 'processing', 'completed']
 AND j.created_at > datetime() - duration({minutes: $mins})
 RETURN count(j) AS cnt` and `cnt > 0`. -/
def check_cooldown (jobs : List IngestJob) (now mins : Int) (username : Str) : Bool :=
  decide (0 < jobs.countP (fun j =>
    decide (j.username = username
      ∧ (j.status = .queued ∨ j.status = .processing ∨ j.status = .completed)
      ∧ now - mins < j.created_at)))

/-- The `/api/ingest/instagram` route decision: without `force`, a hit on
`check_cooldown` raises HTTP 429 (`Except.error`); otherwise a queued job is
created (202 Accepted). -/
def ingest_instagram (jobs : List IngestJob) (now mins : Int) (username jobId : Str)
    (force : Bool) : Except Unit (List IngestJob) :=
  if force = false ∧ check_cooldown jobs now mins username = true then .error ()
  else .ok (create_ingest_job jobs jobId username (S "ig:" ++ username) now)

/-! ## Pipeline orchestrator (`app/services/pipeline.py`, `run_instagram_ingest`) -/

structure JobResult where
  entities_added : Nat
  posts_analyzed : Nat
  failed_steps : List Str
deriving DecidableEq

/-- One `update_ingest_job` call: status plus the mutable payload fields. -/
structure JobUpdate where
  status : JobStatus
  progress : Option Str
  result : Option JobResult
  error : Option Str
deriving DecidableEq

def procUpdate (step : String) : JobUpdate := ⟨.processing, some (S step), none, none⟩

def failUpdate (e : Str) : JobUpdate := ⟨.failed, none, none, some e⟩

def doneUpdate (r : JobResult) : JobUpdate := ⟨.completed, none, some r, none⟩

structure IgProfile where
  fullName : Option Str
  biography : Option Str
  profilePicUrl : Option Str
deriving DecidableEq

structure IgPost where
  caption : Option Str
  slideUrls : List Str
  displayUrl : Option Str
deriving DecidableEq

structure ScrapeData where
  profile : IgProfile
  posts : List IgPost
deriving DecidableEq

structure YutoriResearchResp where
  task_id : Option Str
deriving DecidableEq

structure YutoriScoutResp where
  id : Option Str
deriving DecidableEq

/-- The environment of one pipeline run: the outcome of every external call.
`scrape` failure is caught explicitly by the orchestrator;
`createUserErr` / `addEntitiesErr` / `getInterestsErr` model an unexpected
exception raised by the corresponding awaited store call (caught only by the
outer handler); `rekaImage` failures are swallowed per image;
`rekaExtract` never raises (`extract_interests` catches everything
internally and returns `{"entities": {}}`); `pioneerExtract` may raise (the
orchestrator wraps it in `try`); the Yutori submissions carry the
post-retry outcome of the decorated submit calls. -/
structure PipelineEnv where
  scrape : Except Str ScrapeData
  createUserErr : Option Str
  rekaImage : Nat → Except Unit Str
  rekaExtract : Str → List (Str × List Str)
  pioneerExtract : Str → Except Unit (List (Str × List Str))
  addEntitiesErr : Option Str
  getInterestsErr : Option Str
  yutoriResearch : Str → Except VendorErr YutoriResearchResp
  yutoriScouting : Str → Except VendorErr YutoriScoutResp

/-- `ORDER BY r.weight DESC` in `get_user_interests`. -/
def weightGE (a b : Str × ℚ) : Prop := b.2 ≤ a.2

instance : DecidableRel weightGE := fun a b => inferInstanceAs (Decidable (b.2 ≤ a.2))

instance : IsTotal (Str × ℚ) weightGE := ⟨fun a b => le_total b.2 a.2⟩

instance : IsTrans (Str × ℚ) weightGE := ⟨fun _ _ _ h1 h2 => le_trans h2 h1⟩

/-- `get_user_interests(user_id)`: `(hobby, weight)` pairs sorted by weight
descending. -/
def get_user_interests (g : GraphState) (uid : Str) : List (Str × ℚ) :=
  List.insertionSort weightGE
    ((g.interests.filter (fun e => decide (e.user = uid))).map (fun e => (e.hobby, e.weight)))

/-- Captions collected from bio and posts (`if bio_text: ...`,
`if post.get("caption"): ...`). -/
def collectCaptions (dat : ScrapeData) : List Str :=
  (if dat.profile.biography.getD [] ≠ [] then [dat.profile.biography.getD []] else [])
  ++ dat.posts.filterMap (fun p =>
      match p.caption with
      | some c => if c ≠ [] then some c else none
      | none => none)

/-- `(url, caption)` pairs: all carousel slides, else the display image. -/
def collectImageItems (dat : ScrapeData) : List (Str × Str) :=
  (dat.posts.map (fun p =>
    if p.slideUrls ≠ [] then p.slideUrls.map (fun url => (url, p.caption.getD []))
    else
      match p.displayUrl with
      | some u => if u ≠ [] then [(u, p.caption.getD [])] else []
      | none => [])).flatten

/-- `(url, per-image Reka outcome)` pairs for the semaphore-gated fan-out
(`asyncio.gather` over `_safe_reka_analyze`), capped at `max_posts * 3`. -/
def rekaPairsOf (env : PipelineEnv) (dat : ScrapeData) (maxPosts : Nat) :
    List (Str × Except Unit Str) :=
  ((collectImageItems dat).take (maxPosts * 3)).enum.map
    (fun ie => (ie.2.1, env.rekaImage ie.1))

/-- The non-empty per-image captions (`[r for r in reka_results if r]`). -/
def rekaOkOf (env : PipelineEnv) (dat : ScrapeData) (maxPosts : Nat) : List Str :=
  (rekaPairsOf env dat maxPosts).filterMap (fun pr =>
    match pr.2 with
    | .ok s => if s ≠ [] then some s else none
    | .error _ => none)

/-- The `"reka:{url[:60]}"` failed steps accumulated by
`_safe_reka_analyze`. -/
def rekaFailedOf (env : PipelineEnv) (dat : ScrapeData) (maxPosts : Nat) : List Str :=
  (rekaPairsOf env dat maxPosts).filterMap (fun pr =>
    match pr.2 with
    | .ok _ => none
    | .error _ => some (S "reka:" ++ pr.1.take 60))

/-- `combined_text = "\n\n".join(captions)`. -/
def combinedText (env : PipelineEnv) (dat : ScrapeData) (maxPosts : Nat) : Str :=
  List.intercalate [10, 10] (collectCaptions dat ++ rekaOkOf env dat maxPosts)

/-- The entity set the pipeline writes: the primary extraction, replaced by
the Pioneer fallback result when the primary returned an empty set and the
fallback did not raise. -/
def pipelineEntities (env : PipelineEnv) (dat : ScrapeData) (maxPosts : Nat) :
    List (Str × List Str) :=
  let combined := combinedText env dat maxPosts
  let primary := env.rekaExtract combined
  if primary.isEmpty then
    match env.pioneerExtract combined with
    | .ok e2 => e2
    | .error _ => primary
  else primary

/-- One iteration of the per-interest Yutori submission loop (step 4): a
failed research submission skips the scouting call; either failure appends
`"yutori:{interest}"` to the accumulated failed steps and does not fail the
job. -/
def submitStep (env : PipelineEnv) (fs : List Str) (it : Str × ℚ) : List Str :=
  match env.yutoriResearch it.1 with
  | .error _ => fs ++ [S "yutori:" ++ it.1]
  | .ok _ =>
    match env.yutoriScouting it.1 with
    | .error _ => fs ++ [S "yutori:" ++ it.1]
    | .ok _ => fs

def submitYutoriLoop (env : PipelineEnv) (top : List (Str × ℚ)) (fs0 : List Str) :
    List Str :=
  top.foldl (submitStep env) fs0

/-- Counters and intermediate values of one pipeline run, used to state the
extraction-fallback and retry-surfacing properties. -/
structure PipelineStats where
  rekaExtractCalls : Nat
  pioneerCalls : Nat
  primaryEntities : List (Str × List Str)
deriving DecidableEq

def noStats : PipelineStats := ⟨0, 0, []⟩

/-- `run_instagram_ingest(job_id, username, user_id, max_posts, ...)`,
returning the ordered list of `update_ingest_job` writes and the run's
extraction statistics.  `g` is the graph at pipeline start, `topK` is
`settings.top_interests_for_yutori`. -/
def run_instagram_ingest (env : PipelineEnv) (g : GraphState) (uid : Str)
    (maxPosts topK : Nat) : List JobUpdate × PipelineStats :=
  let u1 := procUpdate "scraping"
  match env.scrape with
  | .error e => ([u1, failUpdate (S "Scraper error: " ++ e)], noStats)
  | .ok dat =>
    match env.createUserErr with
    | some e => ([u1, failUpdate e], noStats)
    | none =>
      let u2 := procUpdate "analyzing_media"
      let rekaFailed := rekaFailedOf env dat maxPosts
      let u3 := procUpdate "extracting_entities"
      let combined := combinedText env dat maxPosts
      let primary := env.rekaExtract combined
      let pcall : Nat := if primary.isEmpty then 1 else 0
      let entities := pipelineEntities env dat maxPosts
      let stats : PipelineStats := ⟨1, pcall, primary⟩
      match env.addEntitiesErr with
      | some e => ([u1, u2, u3, failUpdate e], stats)
      | none =>
        let ac := add_entities_from_extraction g uid entities (S "visual")
        let u4 := procUpdate "submitting_research"
        match env.getInterestsErr with
        | some e => ([u1, u2, u3, u4, failUpdate e], stats)
        | none =>
          let top := (get_user_interests ac.1 uid).take topK
          let fs := submitYutoriLoop env top rekaFailed
          let u5 := doneUpdate ⟨ac.2, dat.posts.length, fs⟩
          ([u1, u2, u3, u4, u5], stats)

def statusRank : JobStatus → Nat
  | .queued => 0
  | .processing => 1
  | .completed => 2
  | .failed => 2

def isTerminalStatus (s : JobStatus) : Prop := s = .completed ∨ s = .failed

instance (s : JobStatus) : Decidable (isTerminalStatus s) :=
  inferInstanceAs (Decidable (s = .completed ∨ s = .failed))

/-- Ranks never decrease along consecutive statuses. -/
def ranksMonotone : List JobStatus → Bool
  | [] => true
  | [_] => true
  | a :: b :: rest => decide (statusRank a ≤ statusRank b) && ranksMonotone (b :: rest)

/-- Every status except possibly the last one is non-terminal. -/
def noEarlyTerminal : List JobStatus → Bool
  | [] => true
  | [_] => true
  | a :: rest => !(decide (isTerminalStatus a)) && noEarlyTerminal rest

/-- A forward-only status history: ranks never decrease along consecutive
updates, and a terminal status appears only in the last position. -/
def MonotoneRun (l : List JobStatus) : Prop :=
  ranksMonotone l = true ∧ noEarlyTerminal l = true

instance (l : List JobStatus) : Decidable (MonotoneRun l) :=
  inferInstanceAs (Decidable (ranksMonotone l = true ∧ noEarlyTerminal l = true))

/-- Claim C3: over any run of the orchestrator, the job's status history —
`queued` at creation followed by the statuses of every `update_ingest_job`
write, in order — only moves forward along
queued → processing → (completed | failed): it never reverts, and once a
terminal status is written no further update follows. -/
theorem ingest_job_status_monotone (env : PipelineEnv) (g : GraphState) (uid : Str)
    (maxPosts topK : Nat) :
    MonotoneRun (.queued ::
      ((run_instagram_ingest env g uid maxPosts topK).1.map JobUpdate.status)) := by
  unfold run_instagram_ingest
  rcases env.scrape with e | dat
  · show MonotoneRun [.queued, .processing, .failed]
    decide
  · rcases env.createUserErr with _ | e
    · rcases env.addEntitiesErr with _ | e
      · rcases env.getInterestsErr with _ | e
        · show MonotoneRun
            [.queued, .processing, .processing, .processing, .processing, .completed]
          decide
        · show MonotoneRun
            [.queued, .processing, .processing, .processing, .processing, .failed]
          decide
      · show MonotoneRun [.queued, .processing, .processing, .processing, .failed]
        decide
    · show MonotoneRun [.queued, .processing, .failed]
      decide

/-- Claim C7: on every ingestion run that reaches the extraction stage, the
primary extractor (Reka) is invoked exactly once, on the combined text; the
secondary extractor (Pioneer) is invoked if and only if the primary
returned an empty entity set, and it is invoked at most once. -/
theorem extraction_fallback (env : PipelineEnv) (g : GraphState) (uid : Str)
    (maxPosts topK : Nat) (dat : ScrapeData)
    (hs : env.scrape = .ok dat) (hcu : env.createUserErr = none) :
    ((run_instagram_ingest env g uid maxPosts topK).2).rekaExtractCalls = 1
    ∧ ((run_instagram_ingest env g uid maxPosts topK).2).primaryEntities
        = env.rekaExtract (combinedText env dat maxPosts)
    ∧ ((run_instagram_ingest env g uid maxPosts topK).2).pioneerCalls
        = (if ((run_instagram_ingest env g uid maxPosts topK).2).primaryEntities.isEmpty
            then 1 else 0)
    ∧ ((run_instagram_ingest env g uid maxPosts topK).2).pioneerCalls ≤ 1 := by
  unfold run_instagram_ingest
  rw [hs, hcu]
  have hle : (if (env.rekaExtract (combinedText env dat maxPosts)).isEmpty
      then (1 : Nat) else 0) ≤ 1 := by
    split <;> decide
  rcases env.addEntitiesErr with _ | e
  · rcases env.getInterestsErr with _ | e
    · exact ⟨rfl, rfl, rfl, hle⟩
    · exact ⟨rfl, rfl, rfl, hle⟩
  · exact ⟨rfl, rfl, rfl, hle⟩

/-- Witness for C7: a scrape with no posts and a primary extractor returning
nothing, so the fallback fires once. -/
theorem extraction_fallback_witness :
    ((run_instagram_ingest
        ⟨.ok ⟨⟨none, none, none⟩, []⟩, none, fun _ => .error (), fun _ => [],
          fun _ => .ok [(S "hobby", [S "chess"])], none, none,
          fun _ => .ok ⟨some (S "r1")⟩, fun _ => .ok ⟨some (S "s1")⟩⟩
        GraphState.empty (S "u1") 10 3).2).rekaExtractCalls = 1
    ∧ ((run_instagram_ingest
        ⟨.ok ⟨⟨none, none, none⟩, []⟩, none, fun _ => .error (), fun _ => [],
          fun _ => .ok [(S "hobby", [S "chess"])], none, none,
          fun _ => .ok ⟨some (S "r1")⟩, fun _ => .ok ⟨some (S "s1")⟩⟩
        GraphState.empty (S "u1") 10 3).2).primaryEntities
        = (fun (_ : Str) => ([] : List (Str × List Str)))
            (combinedText
              ⟨.ok ⟨⟨none, none, none⟩, []⟩, none, fun _ => .error (), fun _ => [],
                fun _ => .ok [(S "hobby", [S "chess"])], none, none,
                fun _ => .ok ⟨some (S "r1")⟩, fun _ => .ok ⟨some (S "s1")⟩⟩
              ⟨⟨none, none, none⟩, []⟩ 10)
    ∧ ((run_instagram_ingest
        ⟨.ok ⟨⟨none, none, none⟩, []⟩, none, fun _ => .error (), fun _ => [],
          fun _ => .ok [(S "hobby", [S "chess"])], none, none,
          fun _ => .ok ⟨some (S "r1")⟩, fun _ => .ok ⟨some (S "s1")⟩⟩
        GraphState.empty (S "u1") 10 3).2).pioneerCalls
        = (if ((run_instagram_ingest
              ⟨.ok ⟨⟨none, none, none⟩, []⟩, none, fun _ => .error (), fun _ => [],
                fun _ => .ok [(S "hobby", [S "chess"])], none, none,
                fun _ => .ok ⟨some (S "r1")⟩, fun _ => .ok ⟨some (S "s1")⟩⟩
              GraphState.empty (S "u1") 10 3).2).primaryEntities.isEmpty
            then 1 else 0)
    ∧ ((run_instagram_ingest
        ⟨.ok ⟨⟨none, none, none⟩, []⟩, none, fun _ => .error (), fun _ => [],
          fun _ => .ok [(S "hobby", [S "chess"])], none, none,
          fun _ => .ok ⟨some (S "r1")⟩, fun _ => .ok ⟨some (S "s1")⟩⟩
        GraphState.empty (S "u1") 10 3).2).pioneerCalls ≤ 1 :=
  extraction_fallback
    ⟨.ok ⟨⟨none, none, none⟩, []⟩, none, fun _ => .error (), fun _ => [],
      fun _ => .ok [(S "hobby", [S "chess"])], none, none,
      fun _ => .ok ⟨some (S "r1")⟩, fun _ => .ok ⟨some (S "s1")⟩⟩
    GraphState.empty (S "u1") 10 3 ⟨⟨none, none, none⟩, []⟩ rfl rfl

/-- Claim C9: the cooldown check counts only prior jobs with status
`queued`, `processing` or `completed` inside the cooldown window; a subject
all of whose prior jobs within the window are `failed` is not rate-limited,
so a repeat ingestion request is accepted without the `force` flag. -/
theorem cooldown_ignores_failed (jobs : List IngestJob) (now mins : Int)
    (username jobId : Str)
    (hall : ∀ j ∈ jobs, j.username = username → now - mins < j.created_at →
      j.status = .failed) :
    (check_cooldown jobs now mins username = true
      ↔ ∃ j ∈ jobs, j.username = username
          ∧ (j.status = .queued ∨ j.status = .processing ∨ j.status = .completed)
          ∧ now - mins < j.created_at)
    ∧ check_cooldown jobs now mins username = false
    ∧ ∃ jobs2, ingest_instagram jobs now mins username jobId false = .ok jobs2 := by
  have hiff : check_cooldown jobs now mins username = true
      ↔ ∃ j ∈ jobs, j.username = username
          ∧ (j.status = .queued ∨ j.status = .processing ∨ j.status = .completed)
          ∧ now - mins < j.created_at := by
    unfold check_cooldown
    rw [decide_eq_true_iff, List.countP_pos_iff]
    constructor
    · rintro ⟨j, hj, hp⟩
      exact ⟨j, hj, by simpa using hp⟩
    · rintro ⟨j, hj, hp⟩
      exact ⟨j, hj, by simpa using hp⟩
  have hfalse : check_cooldown jobs now mins username = false := by
    rw [← Bool.not_eq_true, hiff]
    rintro ⟨j, hj, hju, hst, hwin⟩
    have := hall j hj hju hwin
    rcases hst with h | h | h <;> rw [this] at h <;> exact JobStatus.noConfusion h
  refine ⟨hiff, hfalse, ?_⟩
  refine ⟨create_ingest_job jobs jobId username (S "ig:" ++ username) now, ?_⟩
  unfold ingest_instagram
  rw [if_neg]
  rintro ⟨_, hc⟩
  rw [hfalse] at hc
  exact Bool.noConfusion hc

/-- Witness for C9: one failed job for the subject inside the window. -/
theorem cooldown_ignores_failed_witness :
    (check_cooldown [⟨S "j1", S "alice", S "ig:alice", .failed, 98⟩] 100 5 (S "alice") = true
      ↔ ∃ j ∈ [(⟨S "j1", S "alice", S "ig:alice", .failed, 98⟩ : IngestJob)],
          j.username = S "alice"
          ∧ (j.status = .queued ∨ j.status = .processing ∨ j.status = .completed)
          ∧ (100 : Int) - 5 < j.created_at)
    ∧ check_cooldown [⟨S "j1", S "alice", S "ig:alice", .failed, 98⟩] 100 5 (S "alice") = false
    ∧ ∃ jobs2, ingest_instagram [⟨S "j1", S "alice", S "ig:alice", .failed, 98⟩] 100 5
        (S "alice") (S "j2") false = .ok jobs2 :=
  cooldown_ignores_failed [⟨S "j1", S "alice", S "ig:alice", .failed, 98⟩] 100 5
    (S "alice") (S "j2") (by decide)

/-- Counterexample to claim C2 as stated: a 404 vendor rejection raises
`httpx.HTTPStatusError`, which the decorator's `retry_if_exception_type`
does retry — with a network that always answers 404 and
`max_retries = 3`, three vendor calls are made instead of one. -/
theorem retry_4xx_counterexample :
    shouldRetry (.httpStatusError 404) = true
    ∧ submit_research_task 3 (fun _ => .response 404)
        = (.error (.httpStatusError 404), 3) := by
  exact ⟨rfl, rfl⟩

theorem tenacityRun_stops_nonretryable (maxA : Nat) (outcome : Nat → Except VendorErr α)
    (e : VendorErr) (h1 : outcome 1 = .error e) (hr : shouldRetry e = false) :
    tenacityRun maxA outcome = (.error e, 1) := by
  unfold tenacityRun
  cases hm : maxA - 1 with
  | zero =>
      unfold tenacityLoop
      rw [h1]
  | succ r =>
      unfold tenacityLoop
      simp only [h1]
      rw [hr, if_neg (by simp)]

theorem tenacityLoop_exhausts (outcome : Nat → Except VendorErr α) :
    ∀ (r attempt : Nat),
      (∀ k, attempt ≤ k → k ≤ attempt + r →
        ∃ e, outcome k = .error e ∧ shouldRetry e = true) →
      ∃ e, tenacityLoop outcome attempt r = (.error e, attempt + r)
        ∧ shouldRetry e = true := by
  intro r
  induction r with
  | zero =>
      intro attempt h
      obtain ⟨e, he, hre⟩ := h attempt le_rfl (by omega)
      refine ⟨e, ?_, hre⟩
      unfold tenacityLoop
      rw [he, Nat.add_zero]
  | succ r ih =>
      intro attempt h
      obtain ⟨e, he, hre⟩ := h attempt le_rfl (by omega)
      obtain ⟨e2, he2, hre2⟩ := ih (attempt + 1) (fun k h1 h2 => h k (by omega) (by omega))
      refine ⟨e2, ?_, hre2⟩
      unfold tenacityLoop
      simp only [he]
      rw [hre, if_pos rfl]
      have harith : attempt + 1 + r = attempt + (r + 1) := by omega
      rw [harith] at he2
      exact he2

theorem subset_submitStep (env : PipelineEnv) (fs : List Str) (it : Str × ℚ) :
    fs ⊆ submitStep env fs it := by
  unfold submitStep
  rcases env.yutoriResearch it.1 with e | r
  · exact List.subset_append_left fs _
  · rcases env.yutoriScouting it.1 with e | s
    · exact List.subset_append_left fs _
    · exact fun x hx => hx

theorem subset_submitYutoriLoop (env : PipelineEnv) :
    ∀ (l : List (Str × ℚ)) (fs0 : List Str), fs0 ⊆ submitYutoriLoop env l fs0 := by
  intro l
  induction l with
  | nil => intro fs0; exact fun x hx => hx
  | cons a rest ih =>
      intro fs0
      exact fun x hx => ih (submitStep env fs0 a) (subset_submitStep env fs0 a hx)

theorem mem_submitYutoriLoop (env : PipelineEnv) :
    ∀ (l : List (Str × ℚ)) (fs0 : List Str) (it : Str × ℚ), it ∈ l →
      (∃ e, env.yutoriResearch it.1 = .error e) →
      (S "yutori:" ++ it.1) ∈ submitYutoriLoop env l fs0 := by
  intro l
  induction l with
  | nil => intro fs0 it hit; exact absurd hit (List.not_mem_nil it)
  | cons a rest ih =>
      intro fs0 it hit herr
      rcases List.mem_cons.mp hit with rfl | hit2
      · obtain ⟨e, he⟩ := herr
        have hstep : submitStep env fs0 it = fs0 ++ [S "yutori:" ++ it.1] := by
          unfold submitStep
          rw [he]
        have hmem : (S "yutori:" ++ it.1) ∈ submitStep env fs0 it := by
          rw [hstep]
          exact List.mem_append_right fs0 (List.mem_singleton.mpr rfl)
        exact subset_submitYutoriLoop env rest (submitStep env fs0 it) hmem
      · exact ih (submitStep env fs0 a) it hit2 herr

/-- The top-K interests used to seed the Yutori submissions of one pipeline
run. -/
def pipelineTop (env : PipelineEnv) (g : GraphState) (uid : Str)
    (maxPosts topK : Nat) (dat : ScrapeData) : List (Str × ℚ) :=
  (get_user_interests
    (add_entities_from_extraction g uid (pipelineEntities env dat maxPosts) (S "visual")).1
    uid).take topK

/-- Claim C2 (amended): the tenacity decorator on the Yutori submissions
retries exactly `httpx.HTTPStatusError` (raised for **every** non-2xx
response, 4xx and 5xx alike) and `httpx.TimeoutException`, with capped
exponential backoff plus jitter and at most `max_retries` attempts; any
other failure is surfaced immediately after one call; and a submission
failure is non-fatal — it is recorded as a `yutori:{interest}` failed step
on the job, which still completes. -/
theorem submit_retry_policy (maxA : Nat) (net : Nat → AttemptResult)
    (env : PipelineEnv) (g : GraphState) (uid : Str) (maxPosts topK : Nat)
    (dat : ScrapeData) (e1 : VendorErr)
    (hmax : 1 ≤ maxA)
    (hs : env.scrape = .ok dat) (hcu : env.createUserErr = none)
    (hae : env.addEntitiesErr = none) (hgi : env.getInterestsErr = none) :
    (∀ e, shouldRetry e = true ↔ (e = .timeoutException ∨ ∃ c, e = .httpStatusError c))
    ∧ (submitAttempt (net 1) () = .error e1 → shouldRetry e1 = false →
        submit_research_task maxA net = (.error e1, 1))
    ∧ ((∀ k, 1 ≤ k → k ≤ maxA →
          ∃ e, submitAttempt (net k) () = .error e ∧ shouldRetry e = true) →
        ∃ e, submit_research_task maxA net = (.error e, maxA) ∧ shouldRetry e = true)
    ∧ (∀ (attempt : Nat) (jitter : ℚ), 0 ≤ jitter → jitter < 2 →
        retryWait 1 30 attempt jitter < 32)
    ∧ (∀ it ∈ pipelineTop env g uid maxPosts topK dat,
        (∃ e, env.yutoriResearch it.1 = .error e) →
        ∃ res, (run_instagram_ingest env g uid maxPosts topK).1.getLast?
            = some (doneUpdate res)
          ∧ (S "yutori:" ++ it.1) ∈ res.failed_steps) := by
  refine ⟨?_, ?_, ?_, ?_, ?_⟩
  · intro e
    cases e <;> simp [shouldRetry]
  · intro h1 hr
    exact tenacityRun_stops_nonretryable maxA (fun k => submitAttempt (net k) ()) e1 h1 hr
  · intro hall
    obtain ⟨e, he, hre⟩ := tenacityLoop_exhausts (fun k => submitAttempt (net k) ())
      (maxA - 1) 1 (fun k hk1 hk2 => hall k hk1 (by omega))
    refine ⟨e, ?_, hre⟩
    unfold submit_research_task tenacityRun
    rw [he]
    have : 1 + (maxA - 1) = maxA := by omega
    rw [this]
  · intro attempt jitter hj0 hj2
    have h1 : max 0 (min ((1 : ℚ) * 2 ^ attempt) 30) ≤ 30 :=
      max_le (by norm_num) (min_le_right _ _)
    unfold retryWait
    linarith
  · intro it hit herr
    unfold run_instagram_ingest
    rw [hs, hcu, hae, hgi]
    exact ⟨_, rfl, mem_submitYutoriLoop env _ (rekaFailedOf env dat maxPosts) it hit herr⟩

/-- Witness for C2 (amended): `max_retries = 3`, a network whose first
attempt is a non-timeout transport failure, and a pipeline whose single
extracted interest fails Yutori submission. -/
theorem submit_retry_policy_witness :
    ((∀ e, shouldRetry e = true ↔ (e = .timeoutException ∨ ∃ c, e = .httpStatusError c))
    ∧ (submitAttempt ((fun (_ : Nat) => AttemptResult.transportFailure) 1) ()
          = .error .otherTransportError →
        shouldRetry .otherTransportError = false →
        submit_research_task 3 (fun _ => .transportFailure)
          = (.error .otherTransportError, 1))
    ∧ ((∀ k, 1 ≤ k → k ≤ 3 →
          ∃ e, submitAttempt ((fun (_ : Nat) => AttemptResult.transportFailure) k) ()
              = .error e ∧ shouldRetry e = true) →
        ∃ e, submit_research_task 3 (fun _ => .transportFailure) = (.error e, 3)
          ∧ shouldRetry e = true)
    ∧ (∀ (attempt : Nat) (jitter : ℚ), 0 ≤ jitter → jitter < 2 →
        retryWait 1 30 attempt jitter < 32)
    ∧ (∀ it ∈ pipelineTop
          ⟨.ok ⟨⟨none, some (S "I love chess"), none⟩, []⟩, none, fun _ => .error (),
            fun _ => [(S "hobby", [S "chess"])], fun _ => .error (), none, none,
            fun _ => .error .timeoutException, fun _ => .ok ⟨some (S "s1")⟩⟩
          GraphState.empty (S "u1") 10 3 ⟨⟨none, some (S "I love chess"), none⟩, []⟩,
        (∃ e, (fun (_ : Str) =>
            (.error .timeoutException : Except VendorErr YutoriResearchResp)) it.1
          = .error e) →
        ∃ res, (run_instagram_ingest
            ⟨.ok ⟨⟨none, some (S "I love chess"), none⟩, []⟩, none, fun _ => .error (),
              fun _ => [(S "hobby", [S "chess"])], fun _ => .error (), none, none,
              fun _ => .error .timeoutException, fun _ => .ok ⟨some (S "s1")⟩⟩
            GraphState.empty (S "u1") 10 3).1.getLast? = some (doneUpdate res)
          ∧ (S "yutori:" ++ it.1) ∈ res.failed_steps)) :=
  submit_retry_policy 3 (fun _ => .transportFailure)
    ⟨.ok ⟨⟨none, some (S "I love chess"), none⟩, []⟩, none, fun _ => .error (),
      fun _ => [(S "hobby", [S "chess"])], fun _ => .error (), none, none,
      fun _ => .error .timeoutException, fun _ => .ok ⟨some (S "s1")⟩⟩
    GraphState.empty (S "u1") 10 3 ⟨⟨none, some (S "I love chess"), none⟩, []⟩
    .otherTransportError (by decide) rfl rfl rfl rfl

end Friendly
